import Mathlib

/-!
Verification of the hypothesis-map → Excalidraw converter
(`excalidraw_converter.py` over the data model of `model.py`).

Python strings are modelled as `List Char` (`Str`) where character-level
reasoning is needed (the word wrapper), and as Lean `String` elsewhere.
Python's non-deterministic `random.randint` is modelled by an explicit
stream `rng : Nat → Nat` of draws together with a running draw index.
Rational numbers stand in for Python floats: every arithmetic operation the
converter performs (integer sums, halving of integer differences) is exact
in binary floating point, so `ℚ` reproduces the float results exactly.
-/

namespace HypoMap

/-- A Python `str` as its sequence of characters. -/
abbrev Str := List Char

/-- Python `s.split(sep)` for a one-character separator: splits at every
occurrence and keeps empty pieces, `"".split(sep) == [""]`. -/
def splitOnChar (sep : Char) : Str → List Str
  | [] => [[]]
  | c :: rest =>
    match splitOnChar sep rest with
    | [] => [[]]
    | w :: ws => if c = sep then [] :: w :: ws else (c :: w) :: ws

/-- Python `sep.join(pieces)`. -/
def joinWith (sep : Str) : List Str → Str
  | [] => []
  | [w] => w
  | w :: ws => w ++ sep ++ joinWith sep ws

/-- The inner loop of `wrap_text` (lines 62-72 of the source): greedily packs
the words of one over-long line, flushing `current` whenever the next word
would overflow `maxC`.  Mirrors the Python exactly, including the handling
of empty words produced by `split(' ')` on repeated spaces. -/
def wrapWords (maxC : Nat) : List Str → Str → List Str
  | [], current => if current = [] then [] else [current]
  | w :: ws, current =>
    if current = [] then wrapWords maxC ws w
    else if current.length + 1 + w.length ≤ maxC then
      wrapWords maxC ws (current ++ ' ' :: w)
    else current :: wrapWords maxC ws w

/-- One pre-existing line of `wrap_text`: short lines pass through, long
lines go through the greedy word packer. -/
def wrapLine (maxC : Nat) (line : Str) : List Str :=
  if line.length ≤ maxC then [line] else wrapWords maxC (splitOnChar ' ' line) []

/-- `wrap_text` of the source (lines 49-74): split on hard breaks, wrap each
line, re-join with newlines. -/
def wrap_text (text : Str) (maxC : Nat) : Str :=
  joinWith ['\n'] ((splitOnChar '\n' text).map (wrapLine maxC)).flatten

/-- `wrap_text` lifted to Lean `String`s (used by the converter). -/
def wrapS (s : String) (maxC : Nat) : String :=
  ⟨wrap_text s.data maxC⟩

/-- Decimal digit character, `'0'`..`'9'`. -/
def decDigit (n : Nat) : Char := Char.ofNat (48 + n)

/-- Fuel-driven decimal rendering (structural recursion on the fuel, so the
kernel can evaluate it; the fuel `n + 1` always suffices since `n / 10 < n`). -/
def decCharsAux : Nat → Nat → List Char
  | 0, _ => []
  | fuel + 1, n =>
    if n < 10 then [decDigit n]
    else decCharsAux fuel (n / 10) ++ [decDigit (n % 10)]

/-- The decimal character rendering of a natural number, as Python's
`str(i)` / an f-string `{i}` produces it. -/
def decChars (n : Nat) : List Char := decCharsAux (n + 1) n

/-- Python `str(i)` for a natural number. -/
def decimalStr (n : Nat) : String := ⟨decChars n⟩

/-- Python `text.strip()`: drop whitespace from both ends. -/
def pyStrip (s : String) : String :=
  ⟨((s.data.dropWhile Char.isWhitespace).reverse.dropWhile Char.isWhitespace).reverse⟩

/-- Python `c.lower()` on one character, covering ASCII and the Cyrillic
range used by the converter's trigger words. -/
def pyLowerChar (c : Char) : Char :=
  if 'A' ≤ c ∧ c ≤ 'Z' then Char.ofNat (c.toNat + 32)
  else if 'А' ≤ c ∧ c ≤ 'Я' then Char.ofNat (c.toNat + 32)
  else if c = 'Ё' then 'ё'
  else c

/-- Python `s.lower()`. -/
def pyLower (s : String) : String := ⟨s.data.map pyLowerChar⟩

/-- Contiguous-substring test on character lists. -/
def hasSubstr (needle : Str) : Str → Bool
  | [] => needle.isEmpty
  | c :: rest => needle.isPrefixOf (c :: rest) || hasSubstr needle rest

/-- Python `needle in haystack` for strings: substring containment. -/
def strContains (haystack needle : String) : Bool :=
  hasSubstr needle.data haystack.data

/- ===== Data model (`model.py`) ===== -/

/-- `Priority` of `model.py`. -/
inductive Priority
  | HIGH
  | MEDIUM
  | LOW
  | NONE
deriving DecidableEq, Repr

/-- `Metric` of `model.py`. -/
structure Metric where
  name : String
  current_value : String
  target_value : String
  is_leading : Bool := false
  is_lagging : Bool := true
deriving DecidableEq, Repr

/-- `Goal` of `model.py`. -/
structure Goal where
  description : String
  metrics : List Metric := []
  balancing_metrics : List Metric := []
  deadline : Option String := none
  priority : Priority := .NONE
  id : String
deriving DecidableEq, Repr

/-- `Subject` of `model.py`. -/
structure Subject where
  description : String
  pains_desires : List String := []
  is_negative : Bool := false
  priority : Priority := .NONE
  id : String
deriving DecidableEq, Repr

/-- `Hypothesis` of `model.py`. -/
structure Hypothesis where
  if_part : String
  then_part : String
  because_part : String
  then_metric : String
  subject_id : Option String := none
  goal_id : Option String := none
  priority : Priority := .NONE
  is_validated : Bool := false
  id : String
deriving DecidableEq, Repr

/-- `Task` of `model.py`. -/
structure Task where
  description : String
  hypothesis_id : String
  deadline : Option String := none
  priority : Priority := .NONE
  id : String
deriving DecidableEq, Repr

/-- `HypothesisMap` of `model.py` (the `blockers`, `notes` and `topology`
fields are never read by the converter and are omitted). -/
structure HypothesisMap where
  goals : List Goal := []
  subjects : List Subject := []
  hypotheses : List Hypothesis := []
  tasks : List Task := []
deriving DecidableEq, Repr

/- ===== Output elements (`excalidraw_converter.py`) ===== -/

/-- One entry of a `boundElements` list: `{"id": ..., "type": ...}`. -/
structure BoundRef where
  id : String
  btype : String
deriving DecidableEq, Repr

/-- A `startBinding`/`endBinding` object of an arrow. -/
structure ArrowBinding where
  elementId : String
  focus : ℚ
  gap : ℚ
deriving DecidableEq, Repr

/-- One Excalidraw element.  The Python code builds loosely-typed dicts with
three shapes (`rectangle`, `text`, `arrow`); here one record carries the
common envelope plus the text- and arrow-only fields as `Option`s (absent
for the other shapes).  `etype` models the dict key `"type"` (a Lean
keyword); `roundness` models `{"type": n}` as `some n` and `None` as
`none`.  `groupIds`, `frameId`, `link` and `lastCommittedPoint` are always
empty/`None` in the source and are carried verbatim. -/
structure Element where
  id : String
  etype : String
  x : ℚ
  y : ℚ
  width : ℚ
  height : ℚ
  angle : ℚ
  strokeColor : String
  backgroundColor : String
  fillStyle : String
  strokeWidth : ℚ
  strokeStyle : String
  roughness : ℚ
  opacity : ℚ
  groupIds : List String
  frameId : Option String
  roundness : Option Nat
  seed : Nat
  version : Nat
  versionNonce : Nat
  isDeleted : Bool
  boundElements : List BoundRef
  updated : Nat
  link : Option String
  locked : Bool
  text : Option String := none
  fontSize : Option Nat := none
  fontFamily : Option Nat := none
  textAlign : Option String := none
  verticalAlign : Option String := none
  containerId : Option String := none
  originalText : Option String := none
  lineHeight : Option ℚ := none
  points : Option (List (ℚ × ℚ)) := none
  lastCommittedPoint : Option (ℚ × ℚ) := none
  startBinding : Option ArrowBinding := none
  endBinding : Option ArrowBinding := none
  startArrowhead : Option String := none
  endArrowhead : Option String := none
deriving DecidableEq, Repr

/-- The `COLORS` table (element colors). -/
def COLORS_goal : String := "#cadf58"
def COLORS_subject : String := "#ffc831"
def COLORS_hypothesis : String := "#ffef73"
def COLORS_task : String := "#a6cdff"
def COLORS_stroke : String := "#1e1e1e"

/-- `PRIORITY_COLORS`: arrow colors per priority. -/
def PRIORITY_COLORS : Priority → String
  | .HIGH => "#FF7373"
  | .MEDIUM => "#FFC831"
  | .LOW => "#8FD14F"
  | .NONE => "#70736d"

/-- `PRIORITY_STROKE`: arrow stroke widths per priority. -/
def PRIORITY_STROKE : Priority → Nat
  | .HIGH => 4
  | .MEDIUM => 3
  | .LOW => 2
  | .NONE => 2

/-- `generate_id()`: `random.randint(100000, 999999)` rendered as a string;
the draw comes from the stream at index `k`. -/
def generate_id (rng : Nat → Nat) (k : Nat) : String :=
  decimalStr (100000 + rng k % 900000)

/-- `generate_seed()`: `random.randint(100000000, 999999999)` from the
stream at index `k`. -/
def generate_seed (rng : Nat → Nat) (k : Nat) : Nat :=
  100000000 + rng k % 900000000

/-- `create_card` (lines 82-169): rectangle plus its bound centered text.
Consumes four stream draws (rect seed, rect nonce, text seed, text nonce),
returning the next draw index. -/
def create_card (rng : Nat → Nat) (k : Nat) (card_id text_id : String)
    (x y width height : ℚ) (bg_color : String) (text : String)
    (font_size : Nat) : Element × Element × Nat :=
  let lines : Nat := (text.data.count '\n') + 1
  let text_height : ℚ := (lines : ℚ) * (font_size : ℚ) * (5 / 4 : ℚ)
  let rect : Element :=
    { id := card_id
      etype := "rectangle"
      x := x
      y := y
      width := width
      height := height
      angle := 0
      strokeColor := COLORS_stroke
      backgroundColor := bg_color
      fillStyle := "solid"
      strokeWidth := 2
      strokeStyle := "solid"
      roughness := 0
      opacity := 100
      groupIds := []
      frameId := none
      roundness := some 3
      seed := generate_seed rng k
      version := 1
      versionNonce := generate_seed rng (k + 1)
      isDeleted := false
      boundElements := [⟨text_id, "text"⟩]
      updated := 1
      link := none
      locked := false }
  let text_elem : Element :=
    { id := text_id
      etype := "text"
      x := x + 10
      y := y + (height - text_height) / 2
      width := width - 20
      height := text_height
      angle := 0
      strokeColor := COLORS_stroke
      backgroundColor := "transparent"
      fillStyle := "solid"
      strokeWidth := 1
      strokeStyle := "solid"
      roughness := 0
      opacity := 100
      groupIds := []
      frameId := none
      roundness := none
      seed := generate_seed rng (k + 2)
      version := 1
      versionNonce := generate_seed rng (k + 3)
      isDeleted := false
      boundElements := []
      updated := 1
      link := none
      locked := false
      text := some text
      fontSize := some font_size
      fontFamily := some 3
      textAlign := some "left"
      verticalAlign := some "middle"
      containerId := some card_id
      originalText := some text
      lineHeight := some (5 / 4 : ℚ) }
  (rect, text_elem, k + 4)

/-- `create_arrow` (lines 172-224): connector between two cards.  Consumes
two stream draws (seed, nonce). -/
def create_arrow (rng : Nat → Nat) (k : Nat) (arrow_id start_id end_id : String)
    (start_x start_y end_x end_y : ℚ) (color : String) (stroke_width : Nat) :
    Element × Nat :=
  let arrow : Element :=
    { id := arrow_id
      etype := "arrow"
      x := start_x
      y := start_y
      width := |end_x - start_x|
      height := |end_y - start_y|
      angle := 0
      strokeColor := color
      backgroundColor := "transparent"
      fillStyle := "solid"
      strokeWidth := (stroke_width : ℚ)
      strokeStyle := "solid"
      roughness := 0
      opacity := 100
      groupIds := []
      frameId := none
      roundness := some 2
      seed := generate_seed rng k
      version := 1
      versionNonce := generate_seed rng (k + 1)
      isDeleted := false
      boundElements := []
      updated := 1
      link := none
      locked := false
      points := some [(0, 0), (end_x - start_x, end_y - start_y)]
      lastCommittedPoint := none
      startBinding := some ⟨start_id, 0, 5⟩
      endBinding := some ⟨end_id, 0, 5⟩
      startArrowhead := none
      endArrowhead := some "arrow" }
  (arrow, k + 2)

/-- `create_label` (lines 227-264): a column header.  Consumes three stream
draws (the id digits, seed, nonce). -/
def create_label (rng : Nat → Nat) (k : Nat) (text : String)
    (x y width : ℚ) : Element × Nat :=
  let label : Element :=
    { id := "label-" ++ generate_id rng k
      etype := "text"
      x := x
      y := y
      width := width
      height := 30
      angle := 0
      strokeColor := "#868e96"
      backgroundColor := "transparent"
      fillStyle := "solid"
      strokeWidth := 1
      strokeStyle := "solid"
      roughness := 0
      opacity := 100
      groupIds := []
      frameId := none
      roundness := none
      seed := generate_seed rng (k + 1)
      version := 1
      versionNonce := generate_seed rng (k + 2)
      isDeleted := false
      boundElements := []
      updated := 1
      link := none
      locked := false
      text := some text
      fontSize := some 18
      fontFamily := some 3
      textAlign := some "center"
      verticalAlign := some "top"
      containerId := none
      originalText := some text
      lineHeight := some (5 / 4 : ℚ) }
  (label, k + 3)

/- ===== convert_to_excalidraw (lines 267-522) ===== -/

/-- One value of the position registry `positions`: the tuple
`(x, y, width, height, card_id)`. -/
structure PosEntry where
  x : ℚ
  y : ℚ
  w : ℚ
  h : ℚ
  card_id : String
deriving DecidableEq, Repr

/-- The registry is a Python dict keyed by entity id: modelled as an
association list with the newest insertion first, so `List.lookup` returns
the latest value for a key, as the dict does. -/
abbrev Positions := List (String × PosEntry)

/-- The goal card's composed text (lines 344-352), before `strip()`. -/
def goalText (g : Goal) : String :=
  let t := "ЦЕЛЬ\n" ++ g.description ++ "\n"
  let t := if g.metrics.isEmpty then t else
    t ++ "\nМетрики:\n" ++
      String.join ((g.metrics.take 3).map (fun m =>
        "• " ++ m.name ++ ": " ++ m.current_value ++ " → " ++ m.target_value ++ "\n"))
  if g.balancing_metrics.isEmpty then t else
    t ++ "\nБалансирующие:\n" ++
      String.join ((g.balancing_metrics.take 2).map (fun m => "• " ++ m.name ++ "\n"))

/-- The subject card's composed text (lines 366-373), before `strip()`. -/
def subjectText (s : Subject) : String :=
  let t := "СУБЪЕКТ\n" ++ s.description ++ "\n"
  if s.pains_desires.isEmpty then t else
    let pains := s.pains_desires.filter (fun p =>
      strContains (pyLower p) "боль" || strContains (pyLower p) "страх")
    let desires := s.pains_desires.filter (fun p => !(pains.contains p))
    let t := if pains.isEmpty then t else
      t ++ "\nБоли:\n" ++ String.intercalate "\n" ((pains.take 3).map (fun p => "• " ++ p))
    if desires.isEmpty then t else
      t ++ "\n\nЖелания:\n" ++ String.intercalate "\n" ((desires.take 3).map (fun d => "• " ++ d))

/-- The hypothesis card's composed text (lines 387-397) for the hypothesis
at 0-based index `i`, before `strip()`. -/
def hypothesisText (i : Nat) (h : Hypothesis) : String :=
  let priority_label := match h.priority with
    | .HIGH => "🔴 Высокий"
    | .MEDIUM => "🟡 Средний"
    | .LOW => "🟢 Низкий"
    | .NONE => ""
  let t := "ГИПОТЕЗА " ++ decimalStr (i + 1)
  let t := if priority_label = "" then t else t ++ "\n" ++ priority_label ++ " приоритет"
  t ++ "\n\nЕСЛИ " ++ wrapS h.if_part 40 ++ ",\n\nТО " ++ wrapS h.then_part 40 ++
    ",\n\nПОТОМУ ЧТО " ++ wrapS h.because_part 40 ++ ",\n\nТОГДА " ++ wrapS h.then_metric 40

/-- The goal column loop (lines 339-358): cards at x=100, 320×200, stacked
from y=110 with pitch 200+180.  Returns the new elements in emission order,
the updated registry, the card ids added to `card_elements`, and the next
draw index. -/
def goalsLoop (rng : Nat → Nat) (k : Nat) (i : Nat) (y : ℚ) (pos : Positions) :
    List Goal → List Element × Positions × List String × Nat
  | [] => ([], pos, [], k)
  | g :: gs =>
    let card_id := "goal-" ++ decimalStr i
    let text_id := "goal-text-" ++ decimalStr i
    let (rect, txt, k') := create_card rng k card_id text_id 100 y 320 200
      COLORS_goal (pyStrip (goalText g)) 12
    let pos' := (g.id, PosEntry.mk 100 y 320 200 card_id) :: pos
    let (els, posF, cids, kF) := goalsLoop rng k' (i + 1) (y + 200 + 180) pos' gs
    (rect :: txt :: els, posF, card_id :: cids, kF)

/-- The subject column loop (lines 361-379): x=500, 280×200, pitch 200+180. -/
def subjectsLoop (rng : Nat → Nat) (k : Nat) (i : Nat) (y : ℚ) (pos : Positions) :
    List Subject → List Element × Positions × List String × Nat
  | [] => ([], pos, [], k)
  | s :: ss =>
    let card_id := "subject-" ++ decimalStr i
    let text_id := "subject-text-" ++ decimalStr i
    let (rect, txt, k') := create_card rng k card_id text_id 500 y 280 200
      COLORS_subject (pyStrip (subjectText s)) 11
    let pos' := (s.id, PosEntry.mk 500 y 280 200 card_id) :: pos
    let (els, posF, cids, kF) := subjectsLoop rng k' (i + 1) (y + 200 + 180) pos' ss
    (rect :: txt :: els, posF, card_id :: cids, kF)

/-- The hypothesis column loop (lines 382-403): x=950, 380×350, pitch
350+180. -/
def hypothesesLoop (rng : Nat → Nat) (k : Nat) (i : Nat) (y : ℚ) (pos : Positions) :
    List Hypothesis → List Element × Positions × List String × Nat
  | [] => ([], pos, [], k)
  | h :: hs =>
    let card_id := "hypothesis-" ++ decimalStr i
    let text_id := "hypothesis-text-" ++ decimalStr i
    let (rect, txt, k') := create_card rng k card_id text_id 950 y 380 350
      COLORS_hypothesis (pyStrip (hypothesisText i h)) 11
    let pos' := (h.id, PosEntry.mk 950 y 380 350 card_id) :: pos
    let (els, posF, cids, kF) := hypothesesLoop rng k' (i + 1) (y + 350 + 180) pos' hs
    (rect :: txt :: els, posF, card_id :: cids, kF)

/-- The inner task loop (lines 425-435): the `j`-th task of the current
block goes at `task_start_y + j * (100 + 15)`; `task_idx` numbers task
cards globally. -/
def tasksInner (rng : Nat → Nat) (k : Nat) (task_idx : Nat) (task_start_y : ℚ)
    (j : Nat) (pos : Positions) :
    List Task → List Element × Positions × List String × Nat × Nat
  | [] => ([], pos, [], k, task_idx)
  | t :: ts =>
    let card_id := "task-" ++ decimalStr task_idx
    let text_id := "task-text-" ++ decimalStr task_idx
    let task_y := task_start_y + (j : ℚ) * (100 + 15)
    let (rect, txt, k') := create_card rng k card_id text_id 1400 task_y 240 100
      COLORS_task (wrapS t.description 25) 12
    let pos' := (t.id, PosEntry.mk 1400 task_y 240 100 card_id) :: pos
    let (els, posF, cids, kF, idxF) :=
      tasksInner rng k' (task_idx + 1) task_start_y (j + 1) pos' ts
    (rect :: txt :: els, posF, card_id :: cids, kF, idxF)

/-- The outer task loop (lines 406-435): tasks grouped by
`hypothesis_id` (the group of `h` is `tasks.filter (·.hypothesis_id == h.id)`,
in input order, exactly what the grouping dict holds); each non-empty group
is centered as a block against the registry entry of `h.id`. -/
def tasksOuter (rng : Nat → Nat) (k : Nat) (tasks : List Task) (task_idx : Nat)
    (pos : Positions) :
    List Hypothesis → List Element × Positions × List String × Nat × Nat
  | [] => ([], pos, [], k, task_idx)
  | h :: hs =>
    let hyp_tasks := tasks.filter (fun t => t.hypothesis_id == h.id)
    if hyp_tasks.isEmpty then tasksOuter rng k tasks task_idx pos hs
    else
      match List.lookup h.id pos with
      | none => tasksOuter rng k tasks task_idx pos hs
      | some hp =>
        let total_tasks_h : ℚ :=
          (hyp_tasks.length : ℚ) * 100 + ((hyp_tasks.length - 1 : Nat) : ℚ) * 15
        let task_start_y := hp.y + (hp.h - total_tasks_h) / 2
        let (els1, pos1, cids1, k1, idx1) :=
          tasksInner rng k task_idx task_start_y 0 pos hyp_tasks
        let (els2, pos2, cids2, k2, idx2) := tasksOuter rng k1 tasks idx1 pos1 hs
        (els1 ++ els2, pos2, cids1 ++ cids2, k2, idx2)

/-- The subject→goal arrow loop (lines 446-463): every subject whose id is
registered is linked to the first goal, left-mid edge to right-mid edge,
subject color, width 3.  Returns (arrows, next arrow index, next draw
index).  In the pipeline the first goal's id is always registered; a
missing entry (a `KeyError` in Python) is modelled by skipping. -/
def subjectArrowsLoop (rng : Nat → Nat) (k : Nat) (goals : List Goal)
    (pos : Positions) (arrow_idx : Nat) :
    List Subject → List Element × Nat × Nat
  | [] => ([], arrow_idx, k)
  | s :: ss =>
    match goals with
    | [] => subjectArrowsLoop rng k goals pos arrow_idx ss
    | g0 :: _ =>
      match List.lookup s.id pos with
      | none => subjectArrowsLoop rng k goals pos arrow_idx ss
      | some s_pos =>
        match List.lookup g0.id pos with
        | none => subjectArrowsLoop rng k goals pos arrow_idx ss
        | some g_pos =>
          let arrow_id := "arrow-" ++ decimalStr arrow_idx
          let (arrow, k') := create_arrow rng k arrow_id s_pos.card_id g_pos.card_id
            s_pos.x (s_pos.y + s_pos.h / 2) (g_pos.x + g_pos.w) (g_pos.y + g_pos.h / 2)
            COLORS_subject 3
          let (rest, idxF, kF) := subjectArrowsLoop rng k' goals pos (arrow_idx + 1) ss
          (arrow :: rest, idxF, kF)

/-- The hypothesis→subject arrow loop (lines 466-485): only for a truthy
`subject_id` that is a registry key (with the hypothesis itself also
registered); priority color and stroke width. -/
def hypothesisArrowsLoop (rng : Nat → Nat) (k : Nat) (pos : Positions)
    (arrow_idx : Nat) : List Hypothesis → List Element × Nat × Nat
  | [] => ([], arrow_idx, k)
  | h :: hs =>
    match h.subject_id with
    | none => hypothesisArrowsLoop rng k pos arrow_idx hs
    | some sid =>
      if sid = "" then hypothesisArrowsLoop rng k pos arrow_idx hs
      else
        match List.lookup sid pos, List.lookup h.id pos with
        | some s_pos, some h_pos =>
          let arrow_id := "arrow-" ++ decimalStr arrow_idx
          let (arrow, k') := create_arrow rng k arrow_id h_pos.card_id s_pos.card_id
            h_pos.x (h_pos.y + h_pos.h / 2) (s_pos.x + s_pos.w) (s_pos.y + s_pos.h / 2)
            (PRIORITY_COLORS h.priority) (PRIORITY_STROKE h.priority)
          let (rest, idxF, kF) := hypothesisArrowsLoop rng k' pos (arrow_idx + 1) hs
          (arrow :: rest, idxF, kF)
        | _, _ => hypothesisArrowsLoop rng k pos arrow_idx hs

/-- The task→hypothesis arrow loop (lines 488-504): for every task whose
`hypothesis_id` and own id are registry keys; gray, width 2. -/
def taskArrowsLoop (rng : Nat → Nat) (k : Nat) (pos : Positions)
    (arrow_idx : Nat) : List Task → List Element × Nat × Nat
  | [] => ([], arrow_idx, k)
  | t :: ts =>
    match List.lookup t.hypothesis_id pos, List.lookup t.id pos with
    | some h_pos, some t_pos =>
      let arrow_id := "arrow-" ++ decimalStr arrow_idx
      let (arrow, k') := create_arrow rng k arrow_id t_pos.card_id h_pos.card_id
        t_pos.x (t_pos.y + t_pos.h / 2) (h_pos.x + h_pos.w) (h_pos.y + h_pos.h / 2)
        "#70736d" 2
      let (rest, idxF, kF) := taskArrowsLoop rng k' pos (arrow_idx + 1) ts
      (arrow :: rest, idxF, kF)
    | _, _ => taskArrowsLoop rng k pos arrow_idx ts

/-- The element id an arrow's start binds to. -/
def arrowStartId (a : Element) : String := ((a.startBinding).map (·.elementId)).getD ""

/-- The element id an arrow's end binds to. -/
def arrowEndId (a : Element) : String := ((a.endBinding).map (·.elementId)).getD ""

/-- `add_arrow_binding` (lines 441-444): append an arrow reference to the
bound list of the card registered under `card_id`, when registered.  The
Python closure mutates the card dict in `card_elements`, which is the same
object as the rectangle in `elements`; here the rectangle inside the
element list is updated. -/
def add_arrow_binding (cardIds : List String) (els : List Element)
    (card_id arrow_id : String) : List Element :=
  if cardIds.contains card_id then
    els.map (fun e =>
      if e.etype == "rectangle" && e.id == card_id then
        { e with boundElements := e.boundElements ++ [⟨arrow_id, "arrow"⟩] }
      else e)
  else els

/-- The binding side effects of the three arrow loops: for each arrow in
construction order, its start card and then its end card gain a reference.
In the source this happens interleaved with arrow construction; the arrows
are built purely from `positions`, so applying all bindings after building
all arrows yields the same element list. -/
def applyArrowBindings (cardIds : List String) : List Element → List Element → List Element
  | els, [] => els
  | els, a :: rest =>
    let els1 := add_arrow_binding cardIds els (arrowStartId a) a.id
    let els2 := add_arrow_binding cardIds els1 (arrowEndId a) a.id
    applyArrowBindings cardIds els2 rest

/-- The map title element (lines 295-330).  Consumes three stream draws. -/
def mkTitle (rng : Nat → Nat) (k : Nat) (title : String) : Element × Nat :=
  let e : Element :=
    { id := "title-" ++ generate_id rng k
      etype := "text"
      x := 100
      y := 10
      width := 1400 + 240 - 100
      height := 36
      angle := 0
      strokeColor := "#1e1e1e"
      backgroundColor := "transparent"
      fillStyle := "solid"
      strokeWidth := 1
      strokeStyle := "solid"
      roughness := 0
      opacity := 100
      groupIds := []
      frameId := none
      roundness := none
      seed := generate_seed rng (k + 1)
      version := 1
      versionNonce := generate_seed rng (k + 2)
      isDeleted := false
      boundElements := []
      updated := 1
      link := none
      locked := false
      text := some title
      fontSize := some 28
      fontFamily := some 3
      textAlign := some "left"
      verticalAlign := some "top"
      containerId := none
      originalText := some title
      lineHeight := some (5 / 4 : ℚ) }
  (e, k + 3)

/-- The `appState` of the output envelope. -/
structure AppState where
  gridSize : Option Nat
  viewBackgroundColor : String
deriving DecidableEq, Repr

/-- The output document (the dict serialized on lines 510-522; the final
`json.dumps` serialization itself is not modelled — every claim is about
the document's contents).  `dtype` models the key `"type"`. -/
structure ExcalidrawData where
  dtype : String
  version : Nat
  source : String
  elements : List Element
  appState : AppState
  files : List (String × String)
deriving DecidableEq, Repr

/-- The title element and the draw index after it (lines 294-330). -/
def titleRes (rng : Nat → Nat) (title : String) : Element × Nat :=
  mkTitle rng 0 title

/-- The four column labels (lines 333-336), threading the draw index. -/
def labelRes1 (rng : Nat → Nat) (title : String) : Element × Nat :=
  create_label rng (titleRes rng title).2 "ЦЕЛЬ" 100 60 320

def labelRes2 (rng : Nat → Nat) (title : String) : Element × Nat :=
  create_label rng (labelRes1 rng title).2 "СУБЪЕКТЫ" 500 60 280

def labelRes3 (rng : Nat → Nat) (title : String) : Element × Nat :=
  create_label rng (labelRes2 rng title).2 "ГИПОТЕЗЫ" 950 60 380

def labelRes4 (rng : Nat → Nat) (title : String) : Element × Nat :=
  create_label rng (labelRes3 rng title).2 "ЗАДАЧИ" 1400 60 240

/-- The goal column (lines 339-358). -/
def goalsRes (rng : Nat → Nat) (m : HypothesisMap) (title : String) :
    List Element × Positions × List String × Nat :=
  goalsLoop rng (labelRes4 rng title).2 0 110 [] m.goals

/-- The subject column (lines 361-379). -/
def subjectsRes (rng : Nat → Nat) (m : HypothesisMap) (title : String) :
    List Element × Positions × List String × Nat :=
  subjectsLoop rng (goalsRes rng m title).2.2.2 0 110
    (goalsRes rng m title).2.1 m.subjects

/-- The hypothesis column (lines 382-403). -/
def hypsRes (rng : Nat → Nat) (m : HypothesisMap) (title : String) :
    List Element × Positions × List String × Nat :=
  hypothesesLoop rng (subjectsRes rng m title).2.2.2 0 110
    (subjectsRes rng m title).2.1 m.hypotheses

/-- The task column (lines 405-435). -/
def tasksRes (rng : Nat → Nat) (m : HypothesisMap) (title : String) :
    List Element × Positions × List String × Nat × Nat :=
  tasksOuter rng (hypsRes rng m title).2.2.2 m.tasks 0
    (hypsRes rng m title).2.1 m.hypotheses

/-- The placement phase of `convert_to_excalidraw` (lines 294-435): title,
four column labels, then the four card categories.  Returns (elements in
emission order, card ids registered in `card_elements`, the position
registry, the next draw index).  Each loop's tuple is consumed through
projections: `.1` the new elements, `.2.1` the updated registry, `.2.2.1`
the card ids, and the rest the draw/task counters. -/
def convertBuilt (rng : Nat → Nat) (m : HypothesisMap) (title : String) :
    List Element × List String × Positions × Nat :=
  ((titleRes rng title).1 :: (labelRes1 rng title).1 :: (labelRes2 rng title).1 ::
      (labelRes3 rng title).1 :: (labelRes4 rng title).1 ::
      ((goalsRes rng m title).1 ++ (subjectsRes rng m title).1
        ++ (hypsRes rng m title).1 ++ (tasksRes rng m title).1),
    (goalsRes rng m title).2.2.1 ++ (subjectsRes rng m title).2.2.1
      ++ (hypsRes rng m title).2.2.1 ++ (tasksRes rng m title).2.2.1,
    (tasksRes rng m title).2.1,
    (tasksRes rng m title).2.2.2.1)

/-- The connector phase (lines 437-504): the three arrow families over the
final registry, sharing one arrow counter. -/
def convertArrows (rng : Nat → Nat) (k : Nat) (m : HypothesisMap)
    (pos : Positions) : List Element :=
  let a1 := subjectArrowsLoop rng k m.goals pos 0 m.subjects
  let a2 := hypothesisArrowsLoop rng a1.2.2 pos a1.2.1 m.hypotheses
  let a3 := taskArrowsLoop rng a2.2.2 pos a2.2.1 m.tasks
  a1.1 ++ a2.1 ++ a3.1

/-- `convert_to_excalidraw` (lines 267-522) over the draw stream `rng`:
placement, then connectors, then the binding side effects applied to the
cards, arrows appended last, wrapped in the output envelope. -/
def convert_to_excalidraw (rng : Nat → Nat) (m : HypothesisMap)
    (title : String := "Карта гипотез") : ExcalidrawData :=
  let b := convertBuilt rng m title
  let arrows := convertArrows rng b.2.2.2 m b.2.2.1
  let elements := applyArrowBindings b.2.1 b.1 arrows ++ arrows
  { dtype := "excalidraw"
    version := 2
    source := "https://excalidraw.com"
    elements := elements
    appState := { gridSize := none, viewBackgroundColor := "#ffffff" }
    files := [] }

end HypoMap

namespace HypoMap

/- ===== split / join lemmas ===== -/

theorem splitOnChar_ne_nil (sep : Char) (s : Str) : splitOnChar sep s ≠ [] := by
  induction s with
  | nil => simp [splitOnChar]
  | cons c rest ih =>
    cases h : splitOnChar sep rest with
    | nil => exact absurd h ih
    | cons w ws =>
      simp only [splitOnChar, h]
      split <;> simp

theorem not_mem_of_mem_splitOnChar {sep : Char} {s : Str} {w : Str}
    (hw : w ∈ splitOnChar sep s) : sep ∉ w := by
  induction s generalizing w with
  | nil =>
    simp [splitOnChar] at hw
    simp [hw]
  | cons c rest ih =>
    cases h : splitOnChar sep rest with
    | nil => exact absurd h (splitOnChar_ne_nil sep rest)
    | cons u us =>
      simp only [splitOnChar, h] at hw
      by_cases hc : c = sep
      · simp only [if_pos hc] at hw
        rcases List.mem_cons.mp hw with rfl | hw'
        · simp
        · exact ih (h ▸ hw')
      · simp only [if_neg hc] at hw
        rcases List.mem_cons.mp hw with rfl | hw'
        · intro hmem
          rcases List.mem_cons.mp hmem with rfl | hmem'
          · exact hc rfl
          · exact ih (h ▸ List.mem_cons_self u us) hmem'
        · exact ih (h ▸ List.mem_cons_of_mem u hw')

theorem splitOnChar_of_not_mem {sep : Char} {s : Str} (h : sep ∉ s) :
    splitOnChar sep s = [s] := by
  induction s with
  | nil => simp [splitOnChar]
  | cons c rest ih =>
    have hc : c ≠ sep := fun hc => h (hc ▸ List.mem_cons_self c rest)
    have hrest : sep ∉ rest := fun hm => h (List.mem_cons_of_mem c hm)
    simp only [splitOnChar, ih hrest]
    simp [fun hcs => hc hcs]

theorem splitOnChar_append (sep : Char) (x y : Str) :
    splitOnChar sep (x ++ sep :: y) = splitOnChar sep x ++ splitOnChar sep y := by
  induction x with
  | nil =>
    cases h : splitOnChar sep y with
    | nil => exact absurd h (splitOnChar_ne_nil sep y)
    | cons w ws => simp [splitOnChar, h]
  | cons c x' ih =>
    cases h : splitOnChar sep x' with
    | nil => exact absurd h (splitOnChar_ne_nil sep x')
    | cons u us =>
      have hh : splitOnChar sep (x' ++ sep :: y) = u :: (us ++ splitOnChar sep y) := by
        rw [ih, h, List.cons_append]
      rw [List.cons_append]
      simp only [splitOnChar, hh, h]
      by_cases hc : c = sep
      · simp [hc]
      · simp [hc]

theorem splitOnChar_joinWith {sep : Char} {ws : List Str} (hne : ws ≠ [])
    (hsep : ∀ w ∈ ws, sep ∉ w) :
    splitOnChar sep (joinWith [sep] ws) = ws := by
  induction ws with
  | nil => exact absurd rfl hne
  | cons w ws' ih =>
    cases ws' with
    | nil =>
      simp only [joinWith]
      exact splitOnChar_of_not_mem (hsep w (List.mem_cons_self w []))
    | cons v vs =>
      have : joinWith [sep] (w :: v :: vs) = w ++ sep :: joinWith [sep] (v :: vs) := by
        simp [joinWith]
      rw [this, splitOnChar_append,
        splitOnChar_of_not_mem (hsep w (List.mem_cons_self w _)),
        ih (by simp) (fun u hu => hsep u (List.mem_cons_of_mem w hu))]
      rfl

theorem mem_splitOnChar_joinWith {sep : Char} {ws : List Str} {l : Str}
    (hsep : ∀ w ∈ ws, sep ∉ w)
    (hl : l ∈ splitOnChar sep (joinWith [sep] ws)) : l = [] ∨ l ∈ ws := by
  cases ws with
  | nil =>
    simp [joinWith, splitOnChar] at hl
    exact Or.inl hl
  | cons w ws' =>
    right
    rw [splitOnChar_joinWith (by simp) hsep] at hl
    exact hl

/- ===== wrapWords lemmas ===== -/

/-- Every line emitted by the greedy packer either fits in `maxC`, or is one
of the input words untouched, or is the inherited partial line. -/
theorem mem_wrapWords {maxC : Nat} {ws : List Str} {cur l : Str}
    (hl : l ∈ wrapWords maxC ws cur) : l.length ≤ maxC ∨ l ∈ ws ∨ l = cur := by
  induction ws generalizing cur with
  | nil =>
    by_cases hc : cur = []
    · simp [wrapWords, hc] at hl
    · simp [wrapWords, hc] at hl
      exact Or.inr (Or.inr hl)
  | cons w ws' ih =>
    by_cases hc : cur = []
    · simp only [wrapWords, if_pos hc] at hl
      rcases ih hl with h1 | h2 | h3
      · exact Or.inl h1
      · exact Or.inr (Or.inl (List.mem_cons_of_mem w h2))
      · exact Or.inr (Or.inl (h3 ▸ List.mem_cons_self w ws'))
    · simp only [wrapWords, if_neg hc] at hl
      by_cases hfit : cur.length + 1 + w.length ≤ maxC
      · simp only [if_pos hfit] at hl
        rcases ih hl with h1 | h2 | h3
        · exact Or.inl h1
        · exact Or.inr (Or.inl (List.mem_cons_of_mem w h2))
        · refine Or.inl ?_
          rw [h3]
          simp only [List.length_append, List.length_cons]
          omega
      · simp only [if_neg hfit] at hl
        rcases List.mem_cons.mp hl with rfl | hl'
        · exact Or.inr (Or.inr rfl)
        · rcases ih hl' with h1 | h2 | h3
          · exact Or.inl h1
          · exact Or.inr (Or.inl (List.mem_cons_of_mem w h2))
          · exact Or.inr (Or.inl (h3 ▸ List.mem_cons_self w ws'))

/-- A character that is not the space never appears in an emitted line if it
appears in neither the partial line nor any word. -/
theorem mem_wrapWords_chars {maxC : Nat} {ws : List Str} {cur l : Str} {c : Char}
    (hcur : c ∉ cur) (hws : ∀ w ∈ ws, c ∉ w) (hc : c ≠ ' ')
    (hl : l ∈ wrapWords maxC ws cur) : c ∉ l := by
  induction ws generalizing cur with
  | nil =>
    by_cases h0 : cur = []
    · simp [wrapWords, h0] at hl
    · simp [wrapWords, h0] at hl
      exact hl ▸ hcur
  | cons w ws' ih =>
    by_cases h0 : cur = []
    · simp only [wrapWords, if_pos h0] at hl
      exact ih (hws w (List.mem_cons_self w ws'))
        (fun u hu => hws u (List.mem_cons_of_mem w hu)) hl
    · simp only [wrapWords, if_neg h0] at hl
      by_cases hfit : cur.length + 1 + w.length ≤ maxC
      · simp only [if_pos hfit] at hl
        refine ih ?_ (fun u hu => hws u (List.mem_cons_of_mem w hu)) hl
        intro hmem
        rcases List.mem_append.mp hmem with h1 | h2
        · exact hcur h1
        · rcases List.mem_cons.mp h2 with rfl | h3
          · exact hc rfl
          · exact hws w (List.mem_cons_self w ws') h3
      · simp only [if_neg hfit] at hl
        rcases List.mem_cons.mp hl with rfl | hl'
        · exact hcur
        · exact ih (hws w (List.mem_cons_self w ws'))
            (fun u hu => hws u (List.mem_cons_of_mem w hu)) hl'

/-- The non-empty tokens of the packer's output are exactly the non-empty
tokens of the partial line followed by the non-empty input words, in
order: the greedy packer loses no word and reorders nothing. -/
theorem wrapWords_tokens (maxC : Nat) (ws : List Str) (cur : Str)
    (hws : ∀ w ∈ ws, ' ' ∉ w) :
    (((wrapWords maxC ws cur).map (splitOnChar ' ')).flatten).filter (fun p => !p.isEmpty)
      = (splitOnChar ' ' cur ++ ws).filter (fun p => !p.isEmpty) := by
  induction ws generalizing cur with
  | nil =>
    by_cases h0 : cur = []
    · simp [wrapWords, h0, splitOnChar]
    · simp [wrapWords, h0]
  | cons w ws' ih =>
    have hw : ' ' ∉ w := hws w (List.mem_cons_self w ws')
    have hws' : ∀ u ∈ ws', ' ' ∉ u := fun u hu => hws u (List.mem_cons_of_mem w hu)
    by_cases h0 : cur = []
    · simp only [wrapWords, if_pos h0, ih _ hws']
      rw [splitOnChar_of_not_mem hw, h0]
      simp [splitOnChar]
    · simp only [wrapWords, if_neg h0]
      by_cases hfit : cur.length + 1 + w.length ≤ maxC
      · simp only [if_pos hfit, ih _ hws']
        rw [splitOnChar_append, splitOnChar_of_not_mem hw]
        simp
      · simp only [if_neg hfit]
        rw [List.map_cons, List.flatten_cons, List.filter_append, ih _ hws',
          List.filter_append, List.filter_append]
        rw [splitOnChar_of_not_mem hw]
        cases hbe : w.isEmpty <;> simp [List.filter_cons, hbe]

theorem mem_of_mem_splitOnChar {sep : Char} {s : Str} {w : Str} {c : Char}
    (hw : w ∈ splitOnChar sep s) (hc : c ∈ w) : c ∈ s := by
  induction s generalizing w with
  | nil =>
    simp [splitOnChar] at hw
    subst hw
    simp at hc
  | cons d rest ih =>
    cases h : splitOnChar sep rest with
    | nil => exact absurd h (splitOnChar_ne_nil sep rest)
    | cons u us =>
      simp only [splitOnChar, h] at hw
      by_cases hd : d = sep
      · simp only [if_pos hd] at hw
        rcases List.mem_cons.mp hw with rfl | hw'
        · simp at hc
        · exact List.mem_cons_of_mem d (ih (h ▸ hw') hc)
      · simp only [if_neg hd] at hw
        rcases List.mem_cons.mp hw with rfl | hw'
        · rcases List.mem_cons.mp hc with rfl | hc'
          · exact List.mem_cons_self c rest
          · exact List.mem_cons_of_mem d
              (ih (h ▸ List.mem_cons_self u us) hc')
        · exact List.mem_cons_of_mem d (ih (h ▸ List.mem_cons_of_mem u hw') hc)

/-- The blocks a wrapped line produces contain no newline, provided the line
itself contains none. -/
theorem wrapLine_no_newline {maxC : Nat} {line b : Str} (hline : '\n' ∉ line)
    (hb : b ∈ wrapLine maxC line) : '\n' ∉ b := by
  unfold wrapLine at hb
  by_cases hlen : line.length ≤ maxC
  · simp [if_pos hlen] at hb
    exact hb ▸ hline
  · simp only [if_neg hlen] at hb
    refine mem_wrapWords_chars (by simp) ?_ (by decide) hb
    intro w hw hcw
    exact hline (mem_of_mem_splitOnChar hw hcw)

theorem splitOnChar_joinWith_flatten (sep : Char) {ls : List Str} (h : ls ≠ []) :
    splitOnChar sep (joinWith [sep] ls) = (ls.map (splitOnChar sep)).flatten := by
  induction ls with
  | nil => exact absurd rfl h
  | cons l ls' ih =>
    cases ls' with
    | nil => simp [joinWith]
    | cons l2 ls'' =>
      have : joinWith [sep] (l :: l2 :: ls'') = l ++ sep :: joinWith [sep] (l2 :: ls'') := by
        simp [joinWith]
      rw [this, splitOnChar_append, ih (by simp)]
      simp

/- ===== C3, C4, C9 ===== -/

/-- C3: for every input text and width w ≥ 1, every line of the wrapped
output fits in w characters unless it is a single original word longer than
w; and for break-free input, re-joining the produced lines with single
spaces preserves the sequence of (non-empty) words in order. -/
theorem C3_wrap_width_bound_and_word_preservation (text : Str) (w : Nat)
    (hw : 1 ≤ w) :
    (∀ l ∈ splitOnChar '\n' (wrap_text text w),
        l.length ≤ w ∨
          (w < l.length ∧ ∃ line ∈ splitOnChar '\n' text, l ∈ splitOnChar ' ' line)) ∧
    ('\n' ∉ text →
        (splitOnChar ' '
            (joinWith [' '] (splitOnChar '\n' (wrap_text text w)))).filter
            (fun p => !p.isEmpty)
          = (splitOnChar ' ' text).filter (fun p => !p.isEmpty)) := by
  constructor
  · intro l hl
    have hblocks : ∀ b ∈ ((splitOnChar '\n' text).map (wrapLine w)).flatten, '\n' ∉ b := by
      intro b hb
      rcases List.mem_flatten.mp hb with ⟨bl, hbl, hb2⟩
      rcases List.mem_map.mp hbl with ⟨line, hline, rfl⟩
      exact wrapLine_no_newline (not_mem_of_mem_splitOnChar hline) hb2
    rcases mem_splitOnChar_joinWith hblocks hl with rfl | hmem
    · exact Or.inl (Nat.zero_le w)
    · rcases List.mem_flatten.mp hmem with ⟨bl, hbl, hb2⟩
      rcases List.mem_map.mp hbl with ⟨line, hline, rfl⟩
      unfold wrapLine at hb2
      by_cases hlen : line.length ≤ w
      · simp only [if_pos hlen, List.mem_singleton] at hb2
        exact Or.inl (hb2 ▸ hlen)
      · simp only [if_neg hlen] at hb2
        by_cases hllen : l.length ≤ w
        · exact Or.inl hllen
        · rcases mem_wrapWords hb2 with h1 | h2 | h3
          · exact Or.inl h1
          · exact Or.inr ⟨Nat.lt_of_not_le hllen, line, hline, h2⟩
          · subst h3
            simp at hllen
  · intro hnl
    have htoks : ∀ tok ∈ splitOnChar ' ' text, ' ' ∉ tok :=
      fun tok htok => not_mem_of_mem_splitOnChar htok
    have hlines : splitOnChar '\n' text = [text] := splitOnChar_of_not_mem hnl
    have hwrap : wrap_text text w = joinWith ['\n'] (wrapLine w text) := by
      unfold wrap_text
      rw [hlines]
      simp
    by_cases hlen : text.length ≤ w
    · have hwl : wrapLine w text = [text] := by simp [wrapLine, hlen]
      rw [hwrap, hwl]
      have : joinWith ['\n'] [text] = text := rfl
      rw [this, hlines]
      rfl
    · have hwl : wrapLine w text = wrapWords w (splitOnChar ' ' text) [] := by
        simp [wrapLine, hlen]
      cases hbs : wrapLine w text with
      | nil =>
        have h0 : wrap_text text w = [] := by rw [hwrap, hbs]; rfl
        rw [h0]
        have h1 : splitOnChar '\n' ([] : Str) = [[]] := rfl
        rw [h1]
        have h2 : joinWith [' '] [([] : Str)] = [] := rfl
        rw [h2]
        have h3 := wrapWords_tokens w (splitOnChar ' ' text) [] htoks
        rw [← hwl, hbs] at h3
        have h4 : splitOnChar ' ' ([] : Str) = [[]] := rfl
        rw [h4] at h3
        simp at h3
        rw [h4]
        have h5 : List.filter (fun p => !p.isEmpty) [([] : Str)] = [] := rfl
        rw [h5]
        symm
        rw [List.filter_eq_nil_iff]
        intro a ha
        simp [h3 a ha]
      | cons b bs' =>
        have hne : wrapLine w text ≠ [] := by rw [hbs]; simp
        have hbnl : ∀ x ∈ wrapLine w text, '\n' ∉ x :=
          fun x hx => wrapLine_no_newline hnl hx
        have hprod : splitOnChar '\n' (wrap_text text w) = wrapLine w text := by
          rw [hwrap]
          exact splitOnChar_joinWith hne hbnl
        rw [hprod, splitOnChar_joinWith_flatten ' ' hne]
        have h3 := wrapWords_tokens w (splitOnChar ' ' text) [] htoks
        rw [← hwl] at h3
        rw [h3]
        have h4 : splitOnChar ' ' ([] : Str) = [[]] := rfl
        rw [h4]
        simp [List.filter_cons]

/-- C9: the wrapper is idempotent — wrapping an already-wrapped text at the
same width leaves it unchanged. -/
theorem C9_wrap_idempotent (t : Str) (w : Nat) (hw : 1 ≤ w) :
    wrap_text (wrap_text t w) w = wrap_text t w := by
  set blocks := ((splitOnChar '\n' t).map (wrapLine w)).flatten with hblocks
  have hwt : wrap_text t w = joinWith ['\n'] blocks := rfl
  have hbnl : ∀ b ∈ blocks, '\n' ∉ b := by
    intro b hb
    rcases List.mem_flatten.mp hb with ⟨bl, hbl, hb2⟩
    rcases List.mem_map.mp hbl with ⟨line, hline, rfl⟩
    exact wrapLine_no_newline (not_mem_of_mem_splitOnChar hline) hb2
  have hfix : ∀ b ∈ blocks, wrapLine w b = [b] := by
    intro b hb
    rcases List.mem_flatten.mp hb with ⟨bl, hbl, hb2⟩
    rcases List.mem_map.mp hbl with ⟨line, hline, rfl⟩
    by_cases hlen : b.length ≤ w
    · simp [wrapLine, hlen]
    · unfold wrapLine at hb2
      by_cases hl2 : line.length ≤ w
      · simp only [if_pos hl2, List.mem_singleton] at hb2
        exact absurd (hb2 ▸ hl2) hlen
      · simp only [if_neg hl2] at hb2
        rcases mem_wrapWords hb2 with h1 | h2 | h3
        · exact absurd h1 hlen
        · have hsp : ' ' ∉ b := not_mem_of_mem_splitOnChar h2
          have hbne : b ≠ [] := by
            intro h0
            rw [h0] at hlen
            simp at hlen
          simp only [wrapLine, if_neg hlen, splitOnChar_of_not_mem hsp]
          simp [wrapWords, hbne]
        · subst h3
          simp at hlen
  cases hbs : blocks with
  | nil =>
    rw [hwt, hbs]
    have h0 : joinWith ['\n'] ([] : List Str) = [] := rfl
    rw [h0]
    unfold wrap_text
    have h2 : splitOnChar '\n' ([] : Str) = [[]] := rfl
    rw [h2]
    have h1 : wrapLine w ([] : Str) = [([] : Str)] := by simp [wrapLine]
    rw [List.map_cons, List.map_nil, h1]
    rfl
  | cons b bs' =>
    have hne : blocks ≠ [] := by rw [hbs]; simp
    have hsplit : splitOnChar '\n' (wrap_text t w) = blocks := by
      rw [hwt]
      exact splitOnChar_joinWith hne hbnl
    show joinWith ['\n'] ((splitOnChar '\n' (wrap_text t w)).map (wrapLine w)).flatten
      = wrap_text t w
    rw [hsplit, hwt]
    congr 1
    rw [show (blocks.map (wrapLine w)) = blocks.map (fun b => [b]) from
      List.map_congr_left hfix]
    generalize blocks = bl
    induction bl with
    | nil => rfl
    | cons x xs ihx => simp [ihx]

/-- C4 (code bug witness): on the input `"a\n   \nb"` with width 2 the
middle all-space line is longer than the width, its `split(' ')` yields
only empty words, the packer emits nothing for it, and the hard break
pair around it collapses: the input has two newlines, the output one.
The function's own docstring promises existing line breaks are kept. -/
theorem C4_wrap_drops_break_on_overlong_space_line :
    wrap_text ("a\n   \nb".data) 2 = ("a\nb").data ∧
    ("a\n   \nb".data.count '\n') = 2 ∧ (("a\nb").data.count '\n') = 1 := by
  refine ⟨by decide, by decide, by decide⟩

/- ===== C8: the connector constructor ===== -/

/-- C8: every connector is positioned at its start point, sized by the
absolute deltas, carries exactly the two local points `(0,0)` and
`(Δx, Δy)` (so the absolute endpoints are `(x, y)` and `(x+Δx, y+Δy)`),
binds both endpoints with gap 5 and focus 0, has no start arrowhead and a
filled `"arrow"` end arrowhead. -/
theorem C8_create_arrow_fields (rng : Nat → Nat) (k : Nat)
    (arrow_id start_id end_id : String) (sx sy ex ey : ℚ) (color : String)
    (stroke : Nat) :
    (create_arrow rng k arrow_id start_id end_id sx sy ex ey color stroke).1.x = sx ∧
    (create_arrow rng k arrow_id start_id end_id sx sy ex ey color stroke).1.y = sy ∧
    (create_arrow rng k arrow_id start_id end_id sx sy ex ey color stroke).1.width
      = |ex - sx| ∧
    (create_arrow rng k arrow_id start_id end_id sx sy ex ey color stroke).1.height
      = |ey - sy| ∧
    (create_arrow rng k arrow_id start_id end_id sx sy ex ey color stroke).1.points
      = some [(0, 0), (ex - sx, ey - sy)] ∧
    sx + (ex - sx) = ex ∧ sy + (ey - sy) = ey ∧
    (create_arrow rng k arrow_id start_id end_id sx sy ex ey color stroke).1.startBinding
      = some ⟨start_id, 0, 5⟩ ∧
    (create_arrow rng k arrow_id start_id end_id sx sy ex ey color stroke).1.endBinding
      = some ⟨end_id, 0, 5⟩ ∧
    (create_arrow rng k arrow_id start_id end_id sx sy ex ey color stroke).1.startArrowhead
      = none ∧
    (create_arrow rng k arrow_id start_id end_id sx sy ex ey color stroke).1.endArrowhead
      = some "arrow" :=
  ⟨rfl, rfl, rfl, rfl, rfl, by ring, by ring, rfl, rfl, rfl, rfl⟩

/- ===== C2: hypothesis→subject stroke widths ===== -/

/-- The guard of the hypothesis→subject arrow loop: a truthy `subject_id`
that is a registry key, with the hypothesis itself also registered. -/
def hypConnectable (pos : Positions) (h : Hypothesis) : Bool :=
  match h.subject_id with
  | none => false
  | some sid =>
    !(sid == "") && (List.lookup sid pos).isSome && (List.lookup h.id pos).isSome

theorem hypothesisArrowsLoop_strokeWidths (rng : Nat → Nat) (pos : Positions)
    (hyps : List Hypothesis) :
    ∀ (k idx : Nat),
      ((hypothesisArrowsLoop rng k pos idx hyps).1).map (·.strokeWidth)
        = (hyps.filter (hypConnectable pos)).map
            (fun h => (PRIORITY_STROKE h.priority : ℚ)) := by
  induction hyps with
  | nil => intro k idx; rfl
  | cons h hs ih =>
    intro k idx
    cases hsid : h.subject_id with
    | none => simp [hypothesisArrowsLoop, hsid, List.filter_cons, hypConnectable, ih]
    | some sid =>
      by_cases h0 : sid = ""
      · simp [hypothesisArrowsLoop, hsid, h0, List.filter_cons, hypConnectable, ih]
      · cases hs1 : List.lookup sid pos with
        | none =>
          simp [hypothesisArrowsLoop, hsid, h0, hs1, List.filter_cons,
            hypConnectable, ih]
        | some s_pos =>
          cases hs2 : List.lookup h.id pos with
          | none =>
            simp [hypothesisArrowsLoop, hsid, h0, hs1, hs2, List.filter_cons,
              hypConnectable, ih]
          | some h_pos =>
            simp [hypothesisArrowsLoop, hsid, h0, hs1, hs2, List.filter_cons,
              hypConnectable, ih, create_arrow]

/-- C2 (amended): the hypothesis→subject connector's stroke width follows
the priority table with three tiers — 4 for HIGH, 3 for MEDIUM, 2 for LOW
and NONE. -/
theorem C2_hyp_arrow_stroke_widths (rng : Nat → Nat) (k : Nat) (pos : Positions)
    (idx : Nat) (hyps : List Hypothesis) :
    ((hypothesisArrowsLoop rng k pos idx hyps).1).map (·.strokeWidth)
      = (hyps.filter (hypConnectable pos)).map (fun h =>
          match h.priority with
          | .HIGH => (4 : ℚ)
          | .MEDIUM => 3
          | .LOW => 2
          | .NONE => 2) := by
  rw [hypothesisArrowsLoop_strokeWidths]
  refine List.map_congr_left (fun h _ => ?_)
  cases h.priority <;> norm_num [PRIORITY_STROKE]

/-- The draw stream used for the concrete evaluations. -/
def rng0 : Nat → Nat := fun _ => 0

/-- A map with one subject and one MEDIUM-priority hypothesis referencing
it (and no goals, so the only connector is the hypothesis→subject one). -/
def mC2 : HypothesisMap :=
  { goals := []
    subjects := [{ description := "s", id := "s1" }]
    hypotheses := [{ if_part := "a", then_part := "b", because_part := "c",
                     then_metric := "d", subject_id := some "s1",
                     priority := .MEDIUM, id := "h1" }]
    tasks := [] }

/-- C2 counterexample: the MEDIUM hypothesis's connector has stroke width
3, not the 2 the claim's two-tier table predicts. -/
theorem C2_counterexample :
    (((convert_to_excalidraw rng0 mC2 "t").elements.filter
        (fun e => e.etype == "arrow")).map (·.strokeWidth)) = [3] ∧ (3 : ℚ) ≠ 2 :=
  ⟨by decide, by norm_num⟩

/- ===== decimal id strings: injectivity ===== -/

theorem decCharsAux_congr : ∀ f1 f2 n, n < f1 → n < f2 →
    decCharsAux f1 n = decCharsAux f2 n := by
  intro f1
  induction f1 with
  | zero => intro f2 n h1 _; omega
  | succ f ih =>
    intro f2 n h1 h2
    cases f2 with
    | zero => omega
    | succ f2' =>
      simp only [decCharsAux]
      by_cases h10 : n < 10
      · simp [h10]
      · simp only [if_neg h10]
        have hdiv : n / 10 < n := Nat.div_lt_self (by omega) (by omega)
        rw [ih f2' (n / 10) (by omega) (by omega)]

theorem decChars_eq (n : Nat) :
    decChars n = if n < 10 then [decDigit n]
      else decChars (n / 10) ++ [decDigit (n % 10)] := by
  by_cases h10 : n < 10
  · simp [decChars, decCharsAux, h10]
  · have hdiv : n / 10 < n := Nat.div_lt_self (by omega) (by omega)
    rw [if_neg h10]
    show decCharsAux (n + 1) n = decChars (n / 10) ++ [decDigit (n % 10)]
    rw [decCharsAux, if_neg h10]
    unfold decChars
    rw [decCharsAux_congr n (n / 10 + 1) (n / 10) (by omega) (by omega)]

theorem decChars_ne_nil (n : Nat) : decChars n ≠ [] := by
  rw [decChars_eq]
  by_cases h10 : n < 10 <;> simp [h10]

theorem decDigit_inj_lt : ∀ m < 10, ∀ n < 10, decDigit m = decDigit n → m = n := by
  decide

theorem decChars_inj : ∀ m n : Nat, decChars m = decChars n → m = n := by
  intro m
  induction m using Nat.strong_induction_on with
  | _ m ih =>
    intro n h
    rw [decChars_eq m, decChars_eq n] at h
    by_cases hm : m < 10 <;> by_cases hn : n < 10
    · simp only [if_pos hm, if_pos hn, List.cons.injEq, and_true] at h
      exact decDigit_inj_lt m hm n hn h
    · simp only [if_pos hm, if_neg hn] at h
      have hlen := congrArg List.length h
      simp only [List.length_singleton, List.length_append, List.length_cons,
        List.length_nil] at hlen
      have h1 : 0 < (decChars (n / 10)).length :=
        List.length_pos.mpr (decChars_ne_nil (n / 10))
      omega
    · simp only [if_neg hm, if_pos hn] at h
      have hlen := congrArg List.length h
      simp only [List.length_singleton, List.length_append, List.length_cons,
        List.length_nil] at hlen
      have h1 : 0 < (decChars (m / 10)).length :=
        List.length_pos.mpr (decChars_ne_nil (m / 10))
      omega
    · simp only [if_neg hm, if_neg hn] at h
      obtain ⟨h1, h2⟩ := List.append_inj' h (by simp)
      have hdm : m / 10 < m := Nat.div_lt_self (by omega) (by omega)
      have hq : m / 10 = n / 10 := ih (m / 10) hdm (n / 10) h1
      simp only [List.cons.injEq, and_true] at h2
      have hr : m % 10 = n % 10 :=
        decDigit_inj_lt (m % 10) (Nat.mod_lt m (by omega)) (n % 10)
          (Nat.mod_lt n (by omega)) h2
      omega

theorem string_data_append (a b : String) : (a ++ b).data = a.data ++ b.data := rfl

theorem decimalStr_inj {m n : Nat} (h : decimalStr m = decimalStr n) : m = n := by
  apply decChars_inj
  exact congrArg String.data h

theorem prefixed_id_inj {p : String} {i j : Nat}
    (h : p ++ decimalStr i = p ++ decimalStr j) : i = j := by
  have hd := congrArg String.data h
  rw [string_data_append, string_data_append] at hd
  exact decChars_inj i j (List.append_cancel_left hd)

theorem prefixed_ne_of_head {p q x y : String} {c1 c2 : Char}
    (hp : p.data.head? = some c1) (hq : q.data.head? = some c2) (hne : c1 ≠ c2) :
    p ++ x ≠ q ++ y := by
  intro h
  have hd := congrArg String.data h
  rw [string_data_append, string_data_append] at hd
  cases hpd : p.data with
  | nil => rw [hpd] at hp; simp at hp
  | cons a as =>
    cases hqd : q.data with
    | nil => rw [hqd] at hq; simp at hq
    | cons b bs =>
      rw [hpd] at hp
      rw [hqd] at hq
      simp at hp hq
      rw [hpd, hqd] at hd
      simp at hd
      exact hne (hp ▸ hq ▸ hd.1)

/-- The id sequence `pre ++ str(i), pre ++ str(i+1), ...` of length `n`. -/
def idList (pre : String) : Nat → Nat → List String
  | _, 0 => []
  | i, n + 1 => (pre ++ decimalStr i) :: idList pre (i + 1) n

theorem mem_idList {pre : String} : ∀ {i n : Nat} {c : String},
    c ∈ idList pre i n → ∃ j, j < n ∧ c = pre ++ decimalStr (i + j) := by
  intro i n
  induction n generalizing i with
  | zero => intro c hc; simp [idList] at hc
  | succ n ih =>
    intro c hc
    rcases List.mem_cons.mp hc with rfl | hc'
    · exact ⟨0, by omega, by simp⟩
    · obtain ⟨j, hj, rfl⟩ := ih hc'
      exact ⟨j + 1, by omega, by rw [Nat.add_assoc, Nat.add_comm 1 j]⟩

theorem idList_nodup (pre : String) : ∀ (i n : Nat), (idList pre i n).Nodup := by
  intro i n
  induction n generalizing i with
  | zero => simp [idList]
  | succ n ih =>
    rw [idList, List.nodup_cons]
    refine ⟨fun hmem => ?_, ih (i + 1)⟩
    obtain ⟨j, _, hje⟩ := mem_idList hmem
    have := prefixed_id_inj hje
    omega

theorem idList_disjoint {p q : String} {c1 c2 : Char}
    (hp : p.data.head? = some c1) (hq : q.data.head? = some c2) (hne : c1 ≠ c2)
    {i n i' n' : Nat} {c : String} (hc : c ∈ idList p i n) :
    c ∉ idList q i' n' := by
  intro hc'
  obtain ⟨j, _, rfl⟩ := mem_idList hc
  obtain ⟨j', _, he⟩ := mem_idList hc'
  exact prefixed_ne_of_head hp hq hne he

theorem idList_length (pre : String) : ∀ (i n : Nat), (idList pre i n).length = n := by
  intro i n
  induction n generalizing i with
  | zero => rfl
  | succ n ih => simp [idList, ih]

theorem idList_append (pre : String) : ∀ (a : Nat) (i b : Nat),
    idList pre i (a + b) = idList pre i a ++ idList pre (i + a) b := by
  intro a
  induction a with
  | zero => intro i b; simp [idList]
  | succ a ih =>
    intro i b
    rw [show a + 1 + b = (a + b) + 1 from by omega]
    rw [idList, idList, ih (i + 1) b, List.cons_append]
    congr 3
    omega

/- ===== association-list (Python dict) lookup kit ===== -/

theorem lookup_cons (x : String) (p : String × PosEntry) (l : Positions) :
    List.lookup x (p :: l) = if x == p.1 then some p.2 else List.lookup x l := by
  rcases p with ⟨k, v⟩
  cases h : x == k <;> simp [List.lookup, h]

theorem lookup_append_some {x : String} {l1 l2 : Positions} {v : PosEntry}
    (h : List.lookup x l1 = some v) : List.lookup x (l1 ++ l2) = some v := by
  induction l1 with
  | nil => simp [List.lookup] at h
  | cons p l1' ih =>
    rw [lookup_cons] at h
    rw [List.cons_append, lookup_cons]
    by_cases he : (x == p.1) = true
    · rw [if_pos he] at h
      rw [if_pos he]
      exact h
    · rw [if_neg he] at h
      rw [if_neg he]
      exact ih h

theorem lookup_append_none {x : String} {l1 l2 : Positions}
    (h : List.lookup x l1 = none) :
    List.lookup x (l1 ++ l2) = List.lookup x l2 := by
  induction l1 with
  | nil => simp
  | cons p l1' ih =>
    rw [lookup_cons] at h
    rw [List.cons_append, lookup_cons]
    by_cases he : (x == p.1) = true
    · rw [if_pos he] at h
      simp at h
    · rw [if_neg he] at h
      rw [if_neg he]
      exact ih h

theorem lookup_isSome_iff_mem_keys {x : String} {l : Positions} :
    (List.lookup x l).isSome = true ↔ x ∈ l.map Prod.fst := by
  induction l with
  | nil => simp [List.lookup]
  | cons p l' ih =>
    rw [List.lookup]
    by_cases he : x = p.1
    · simp [he]
    · have : (x == p.1) = false := by simp [he]
      simp [this, ih, he]

theorem lookup_eq_none_of_not_mem_keys {x : String} {l : Positions}
    (h : x ∉ l.map Prod.fst) : List.lookup x l = none := by
  cases hl : List.lookup x l with
  | none => rfl
  | some v =>
    exact absurd (lookup_isSome_iff_mem_keys.mp (by simp [hl])) h

theorem lookup_append_not_mem {x : String} {l1 l2 : Positions}
    (h : x ∉ l1.map Prod.fst) :
    List.lookup x (l1 ++ l2) = List.lookup x l2 :=
  lookup_append_none (lookup_eq_none_of_not_mem_keys h)

/- ===== position-registry closed forms of the placement loops ===== -/

/-- The registry entries the goal loop inserts, in insertion order. -/
def goalPosList : Nat → ℚ → List Goal → Positions
  | _, _, [] => []
  | i, y, g :: gs =>
    (g.id, PosEntry.mk 100 y 320 200 ("goal-" ++ decimalStr i)) ::
      goalPosList (i + 1) (y + 200 + 180) gs

/-- The registry entries the subject loop inserts, in insertion order. -/
def subjectPosList : Nat → ℚ → List Subject → Positions
  | _, _, [] => []
  | i, y, s :: ss =>
    (s.id, PosEntry.mk 500 y 280 200 ("subject-" ++ decimalStr i)) ::
      subjectPosList (i + 1) (y + 200 + 180) ss

/-- The registry entries the hypothesis loop inserts, in insertion order. -/
def hypPosList : Nat → ℚ → List Hypothesis → Positions
  | _, _, [] => []
  | i, y, h :: hs =>
    (h.id, PosEntry.mk 950 y 380 350 ("hypothesis-" ++ decimalStr i)) ::
      hypPosList (i + 1) (y + 350 + 180) hs

theorem goalsLoop_pos (rng : Nat → Nat) : ∀ (gs : List Goal) (k i : Nat) (y : ℚ)
    (pos : Positions),
    (goalsLoop rng k i y pos gs).2.1 = (goalPosList i y gs).reverse ++ pos := by
  intro gs
  induction gs with
  | nil => intro k i y pos; simp [goalsLoop, goalPosList]
  | cons g gs' ih =>
    intro k i y pos
    simp [goalsLoop, goalPosList, ih, create_card]

theorem subjectsLoop_pos (rng : Nat → Nat) : ∀ (ss : List Subject) (k i : Nat) (y : ℚ)
    (pos : Positions),
    (subjectsLoop rng k i y pos ss).2.1 = (subjectPosList i y ss).reverse ++ pos := by
  intro ss
  induction ss with
  | nil => intro k i y pos; simp [subjectsLoop, subjectPosList]
  | cons s ss' ih =>
    intro k i y pos
    simp [subjectsLoop, subjectPosList, ih, create_card]

theorem hypothesesLoop_pos (rng : Nat → Nat) : ∀ (hs : List Hypothesis) (k i : Nat) (y : ℚ)
    (pos : Positions),
    (hypothesesLoop rng k i y pos hs).2.1 = (hypPosList i y hs).reverse ++ pos := by
  intro hs
  induction hs with
  | nil => intro k i y pos; simp [hypothesesLoop, hypPosList]
  | cons h hs' ih =>
    intro k i y pos
    simp [hypothesesLoop, hypPosList, ih, create_card]

theorem goalPosList_keys : ∀ (i : Nat) (y : ℚ) (gs : List Goal),
    (goalPosList i y gs).map Prod.fst = gs.map (·.id) := by
  intro i y gs
  induction gs generalizing i y with
  | nil => rfl
  | cons g gs' ih => simp [goalPosList, ih]

theorem subjectPosList_keys : ∀ (i : Nat) (y : ℚ) (ss : List Subject),
    (subjectPosList i y ss).map Prod.fst = ss.map (·.id) := by
  intro i y ss
  induction ss generalizing i y with
  | nil => rfl
  | cons s ss' ih => simp [subjectPosList, ih]

theorem hypPosList_keys : ∀ (i : Nat) (y : ℚ) (hs : List Hypothesis),
    (hypPosList i y hs).map Prod.fst = hs.map (·.id) := by
  intro i y hs
  induction hs generalizing i y with
  | nil => rfl
  | cons h hs' ih => simp [hypPosList, ih]

theorem lookup_isSome_append_right {x : String} {l1 l2 : Positions}
    (h : (List.lookup x l2).isSome = true) :
    (List.lookup x (l1 ++ l2)).isSome = true := by
  rw [lookup_isSome_iff_mem_keys] at h ⊢
  rw [List.map_append]
  exact List.mem_append_right _ h

/-- The tasks the converter actually places: for each hypothesis in map
order, the tasks referencing it, in input order (line 406-415's grouping
followed by the placement loop). -/
def placedTasks (tasks : List Task) (hyps : List Hypothesis) : List Task :=
  hyps.flatMap (fun h => tasks.filter (fun t => t.hypothesis_id == h.id))

/-- The registry entries one task block inserts, in insertion order. -/
def taskPosInner (sy : ℚ) : Nat → Nat → List Task → Positions
  | _, _, [] => []
  | idx, j, t :: ts =>
    (t.id, PosEntry.mk 1400 (sy + (j : ℚ) * (100 + 15)) 240 100
      ("task-" ++ decimalStr idx)) :: taskPosInner sy (idx + 1) (j + 1) ts

theorem taskPosInner_keys (sy : ℚ) : ∀ (ts : List Task) (idx j : Nat),
    (taskPosInner sy idx j ts).map Prod.fst = ts.map (·.id) := by
  intro ts
  induction ts with
  | nil => intro idx j; rfl
  | cons t ts' ih => intro idx j; simp [taskPosInner, ih]

theorem tasksInner_pos (rng : Nat → Nat) : ∀ (ts : List Task) (k idx : Nat)
    (sy : ℚ) (j : Nat) (pos : Positions),
    (tasksInner rng k idx sy j pos ts).2.1 = (taskPosInner sy idx j ts).reverse ++ pos := by
  intro ts
  induction ts with
  | nil => intro k idx sy j pos; simp [tasksInner, taskPosInner]
  | cons t ts' ih =>
    intro k idx sy j pos
    simp [tasksInner, taskPosInner, ih, create_card]

theorem tasksInner_cids (rng : Nat → Nat) : ∀ (ts : List Task) (k idx : Nat)
    (sy : ℚ) (j : Nat) (pos : Positions),
    (tasksInner rng k idx sy j pos ts).2.2.1 = idList "task-" idx ts.length := by
  intro ts
  induction ts with
  | nil => intro k idx sy j pos; rfl
  | cons t ts' ih =>
    intro k idx sy j pos
    simp [tasksInner, idList, ih, create_card]

theorem tasksInner_idx (rng : Nat → Nat) : ∀ (ts : List Task) (k idx : Nat)
    (sy : ℚ) (j : Nat) (pos : Positions),
    (tasksInner rng k idx sy j pos ts).2.2.2.2 = idx + ts.length := by
  intro ts
  induction ts with
  | nil => intro k idx sy j pos; rfl
  | cons t ts' ih =>
    intro k idx sy j pos
    simp [tasksInner, ih, create_card]
    omega

theorem tasksInner_els_length (rng : Nat → Nat) : ∀ (ts : List Task) (k idx : Nat)
    (sy : ℚ) (j : Nat) (pos : Positions),
    (tasksInner rng k idx sy j pos ts).1.length = 2 * ts.length := by
  intro ts
  induction ts with
  | nil => intro k idx sy j pos; rfl
  | cons t ts' ih =>
    intro k idx sy j pos
    simp [tasksInner, ih, create_card]
    omega

theorem tasksOuter_cids (rng : Nat → Nat) (tasks : List Task) :
    ∀ (hyps : List Hypothesis) (k idx : Nat) (pos : Positions),
    (∀ h ∈ hyps, (List.lookup h.id pos).isSome = true) →
    (tasksOuter rng k tasks idx pos hyps).2.2.1
      = idList "task-" idx (placedTasks tasks hyps).length := by
  intro hyps
  induction hyps with
  | nil => intro k idx pos _; rfl
  | cons h hs ih =>
    intro k idx pos hk
    have hh : (List.lookup h.id pos).isSome = true := hk h (List.mem_cons_self h hs)
    obtain ⟨hp, hhp⟩ := Option.isSome_iff_exists.mp hh
    have hks : ∀ h' ∈ hs, (List.lookup h'.id pos).isSome = true :=
      fun h' hm => hk h' (List.mem_cons_of_mem h hm)
    by_cases hemp : (tasks.filter (fun t => t.hypothesis_id == h.id)).isEmpty
    · rw [tasksOuter, if_pos hemp, ih k idx pos hks]
      have : placedTasks tasks (h :: hs) = placedTasks tasks hs := by
        simp only [placedTasks, List.flatMap_cons]
        rw [List.isEmpty_iff.mp hemp]
        simp
      rw [this]
    · rw [tasksOuter, if_neg hemp, hhp]
      simp only
      rw [tasksInner_cids, tasksInner_idx]
      have hplen : (placedTasks tasks (h :: hs)).length
          = (tasks.filter (fun t => t.hypothesis_id == h.id)).length
            + (placedTasks tasks hs).length := by
        simp [placedTasks]
      rw [ih _ _ _ (fun h' hm => by
          rw [tasksInner_pos]
          exact lookup_isSome_append_right (hks h' hm)),
        hplen, idList_append]

theorem tasksOuter_pos_keys (rng : Nat → Nat) (tasks : List Task) :
    ∀ (hyps : List Hypothesis) (k idx : Nat) (pos : Positions),
    (∀ h ∈ hyps, (List.lookup h.id pos).isSome = true) →
    ((tasksOuter rng k tasks idx pos hyps).2.1).map Prod.fst
      = ((placedTasks tasks hyps).map (·.id)).reverse ++ pos.map Prod.fst := by
  intro hyps
  induction hyps with
  | nil => intro k idx pos _; simp [tasksOuter, placedTasks]
  | cons h hs ih =>
    intro k idx pos hk
    have hh : (List.lookup h.id pos).isSome = true := hk h (List.mem_cons_self h hs)
    obtain ⟨hp, hhp⟩ := Option.isSome_iff_exists.mp hh
    have hks : ∀ h' ∈ hs, (List.lookup h'.id pos).isSome = true :=
      fun h' hm => hk h' (List.mem_cons_of_mem h hm)
    by_cases hemp : (tasks.filter (fun t => t.hypothesis_id == h.id)).isEmpty
    · rw [tasksOuter, if_pos hemp, ih k idx pos hks]
      have : placedTasks tasks (h :: hs) = placedTasks tasks hs := by
        simp only [placedTasks, List.flatMap_cons]
        rw [List.isEmpty_iff.mp hemp]
        simp
      rw [this]
    · rw [tasksOuter, if_neg hemp, hhp]
      simp only
      rw [ih, tasksInner_pos]
      · simp only [List.map_append, List.map_reverse, taskPosInner_keys]
        rw [show placedTasks tasks (h :: hs)
            = tasks.filter (fun t => t.hypothesis_id == h.id) ++ placedTasks tasks hs
          from by simp [placedTasks]]
        simp
      · intro h' hm
        rw [tasksInner_pos]
        exact lookup_isSome_append_right (hks h' hm)

theorem tasksOuter_els_length (rng : Nat → Nat) (tasks : List Task) :
    ∀ (hyps : List Hypothesis) (k idx : Nat) (pos : Positions),
    (∀ h ∈ hyps, (List.lookup h.id pos).isSome = true) →
    (tasksOuter rng k tasks idx pos hyps).1.length
      = 2 * (placedTasks tasks hyps).length := by
  intro hyps
  induction hyps with
  | nil => intro k idx pos _; rfl
  | cons h hs ih =>
    intro k idx pos hk
    have hh : (List.lookup h.id pos).isSome = true := hk h (List.mem_cons_self h hs)
    obtain ⟨hp, hhp⟩ := Option.isSome_iff_exists.mp hh
    have hks : ∀ h' ∈ hs, (List.lookup h'.id pos).isSome = true :=
      fun h' hm => hk h' (List.mem_cons_of_mem h hm)
    by_cases hemp : (tasks.filter (fun t => t.hypothesis_id == h.id)).isEmpty
    · rw [tasksOuter, if_pos hemp, ih k idx pos hks]
      have : placedTasks tasks (h :: hs) = placedTasks tasks hs := by
        simp only [placedTasks, List.flatMap_cons]
        rw [List.isEmpty_iff.mp hemp]
        simp
      rw [this]
    · rw [tasksOuter, if_neg hemp, hhp]
      simp only [List.length_append]
      rw [tasksInner_els_length, ih]
      · rw [show placedTasks tasks (h :: hs)
            = tasks.filter (fun t => t.hypothesis_id == h.id) ++ placedTasks tasks hs
          from by simp [placedTasks]]
        simp
        omega
      · intro h' hm
        rw [tasksInner_pos]
        exact lookup_isSome_append_right (hks h' hm)

/- ===== the registry after all placements ===== -/

/-- The ids present in the position registry once all four placement
phases have run: every goal, subject and hypothesis id, plus the ids of
the placed tasks. -/
def registryIds (m : HypothesisMap) : List String :=
  m.goals.map (·.id) ++ m.subjects.map (·.id) ++ m.hypotheses.map (·.id)
    ++ (placedTasks m.tasks m.hypotheses).map (·.id)

theorem pipeline_pos3_keys (rng : Nat → Nat) (m : HypothesisMap) (kg ks kh : Nat) :
    (((hypothesesLoop rng kh 0 110
        ((subjectsLoop rng ks 0 110
          ((goalsLoop rng kg 0 110 [] m.goals).2.1) m.subjects).2.1)
        m.hypotheses).2.1).map Prod.fst)
      = (m.hypotheses.map (·.id)).reverse ++ (m.subjects.map (·.id)).reverse
        ++ (m.goals.map (·.id)).reverse := by
  rw [hypothesesLoop_pos, subjectsLoop_pos, goalsLoop_pos]
  simp [hypPosList_keys, subjectPosList_keys, goalPosList_keys]

theorem pipeline_pos4_keys (rng : Nat → Nat) (m : HypothesisMap) (kg ks kh kt : Nat) :
    (((tasksOuter rng kt m.tasks 0
        ((hypothesesLoop rng kh 0 110
          ((subjectsLoop rng ks 0 110
            ((goalsLoop rng kg 0 110 [] m.goals).2.1) m.subjects).2.1)
          m.hypotheses).2.1)
        m.hypotheses).2.1).map Prod.fst)
      = (registryIds m).reverse := by
  rw [tasksOuter_pos_keys]
  · rw [pipeline_pos3_keys]
    simp [registryIds]
  · intro h hm
    rw [lookup_isSome_iff_mem_keys, pipeline_pos3_keys]
    refine List.mem_append_left _ (List.mem_append_left _ ?_)
    rw [List.mem_reverse]
    exact List.mem_map_of_mem (·.id) hm

theorem pipeline_pos4_lookup_isSome (rng : Nat → Nat) (m : HypothesisMap)
    (kg ks kh kt : Nat) (x : String) :
    ((List.lookup x
        ((tasksOuter rng kt m.tasks 0
          ((hypothesesLoop rng kh 0 110
            ((subjectsLoop rng ks 0 110
              ((goalsLoop rng kg 0 110 [] m.goals).2.1) m.subjects).2.1)
            m.hypotheses).2.1)
          m.hypotheses).2.1)).isSome = true)
      ↔ x ∈ registryIds m := by
  rw [lookup_isSome_iff_mem_keys, pipeline_pos4_keys, List.mem_reverse]

/- ===== arrow loop lengths and shapes ===== -/

theorem subjectArrowsLoop_length_nil (rng : Nat → Nat) (pos : Positions) :
    ∀ (ss : List Subject) (k idx : Nat),
    (subjectArrowsLoop rng k [] pos idx ss).1.length = 0 := by
  intro ss
  induction ss with
  | nil => intro k idx; rfl
  | cons s ss' ih => intro k idx; simp [subjectArrowsLoop, ih]

theorem subjectArrowsLoop_length_cons (rng : Nat → Nat) (pos : Positions)
    (g0 : Goal) (gs : List Goal) (hg0 : (List.lookup g0.id pos).isSome = true) :
    ∀ (ss : List Subject) (k idx : Nat),
    (subjectArrowsLoop rng k (g0 :: gs) pos idx ss).1.length
      = (ss.filter (fun s => (List.lookup s.id pos).isSome)).length := by
  intro ss
  obtain ⟨gp, hgp⟩ := Option.isSome_iff_exists.mp hg0
  induction ss with
  | nil => intro k idx; rfl
  | cons s ss' ih =>
    intro k idx
    cases hsl : List.lookup s.id pos with
    | none => simp [subjectArrowsLoop, hsl, List.filter_cons, ih]
    | some sp =>
      simp [subjectArrowsLoop, hsl, hgp, List.filter_cons, ih, create_arrow]

theorem hypothesisArrowsLoop_length (rng : Nat → Nat) (pos : Positions)
    (hyps : List Hypothesis) (k idx : Nat) :
    (hypothesisArrowsLoop rng k pos idx hyps).1.length
      = (hyps.filter (hypConnectable pos)).length := by
  have h := congrArg List.length (hypothesisArrowsLoop_strokeWidths rng pos hyps k idx)
  simpa using h

theorem taskArrowsLoop_length (rng : Nat → Nat) (pos : Positions) :
    ∀ (ts : List Task) (k idx : Nat),
    (taskArrowsLoop rng k pos idx ts).1.length
      = (ts.filter (fun t => (List.lookup t.hypothesis_id pos).isSome
          && (List.lookup t.id pos).isSome)).length := by
  intro ts
  induction ts with
  | nil => intro k idx; rfl
  | cons t ts' ih =>
    intro k idx
    cases h1 : List.lookup t.hypothesis_id pos with
    | none => simp [taskArrowsLoop, h1, List.filter_cons, ih]
    | some hp =>
      cases h2 : List.lookup t.id pos with
      | none => simp [taskArrowsLoop, h1, h2, List.filter_cons, ih]
      | some tp =>
        simp [taskArrowsLoop, h1, h2, List.filter_cons, ih, create_arrow]

theorem subjectArrowsLoop_etype (rng : Nat → Nat) (goals : List Goal)
    (pos : Positions) : ∀ (ss : List Subject) (k idx : Nat),
    ∀ a ∈ (subjectArrowsLoop rng k goals pos idx ss).1, a.etype = "arrow" := by
  intro ss
  induction ss with
  | nil => intro k idx a ha; simp [subjectArrowsLoop] at ha
  | cons s ss' ih =>
    intro k idx a ha
    cases goals with
    | nil => exact ih k idx a ha
    | cons g0 gs =>
      cases hsl : List.lookup s.id pos with
      | none =>
        rw [subjectArrowsLoop, hsl] at ha
        exact ih k idx a ha
      | some sp =>
        rw [subjectArrowsLoop, hsl] at ha
        cases hgl : List.lookup g0.id pos with
        | none =>
          rw [hgl] at ha
          exact ih k idx a ha
        | some gp =>
          rw [hgl] at ha
          simp only at ha
          rcases List.mem_cons.mp ha with rfl | ha'
          · rfl
          · exact ih _ _ a ha'

theorem hypothesisArrowsLoop_etype (rng : Nat → Nat) (pos : Positions) :
    ∀ (hyps : List Hypothesis) (k idx : Nat),
    ∀ a ∈ (hypothesisArrowsLoop rng k pos idx hyps).1, a.etype = "arrow" := by
  intro hyps
  induction hyps with
  | nil => intro k idx a ha; simp [hypothesisArrowsLoop] at ha
  | cons h hs ih =>
    intro k idx a ha
    cases hsid : h.subject_id with
    | none =>
      rw [hypothesisArrowsLoop, hsid] at ha
      exact ih k idx a ha
    | some sid =>
      simp only [hypothesisArrowsLoop, hsid] at ha
      by_cases h0 : sid = ""
      · rw [if_pos h0] at ha
        exact ih k idx a ha
      · rw [if_neg h0] at ha
        cases hs1 : List.lookup sid pos with
        | none =>
          simp only [hs1] at ha
          exact ih k idx a ha
        | some sp =>
          cases hs2 : List.lookup h.id pos with
          | none =>
            simp only [hs1, hs2] at ha
            exact ih k idx a ha
          | some hp =>
            simp only [hs1, hs2] at ha
            rcases List.mem_cons.mp ha with rfl | ha'
            · rfl
            · exact ih _ _ a ha'

/- ===== the binding pass as a per-element map ===== -/

/-- The arrow references a card with id `cid` accumulates over a list of
arrows: one entry for each endpoint (start first) anchored at `cid`, in
arrow order. -/
def bindingRefs : List Element → String → List BoundRef
  | [], _ => []
  | a :: rest, cid =>
    (if cid == arrowStartId a then [⟨a.id, "arrow"⟩] else []) ++
    (if cid == arrowEndId a then [⟨a.id, "arrow"⟩] else []) ++
    bindingRefs rest cid

theorem add_arrow_binding_eq_map (cids : List String) (els : List Element)
    (cid aid : String) :
    add_arrow_binding cids els cid aid = els.map (fun e =>
      if e.etype == "rectangle" && (e.id == cid && cids.contains cid) then
        { e with boundElements := e.boundElements ++ [⟨aid, "arrow"⟩] }
      else e) := by
  unfold add_arrow_binding
  by_cases hc : cids.contains cid = true
  · rw [if_pos hc]
    apply List.map_congr_left
    intro e _
    rw [hc, Bool.and_true]
  · rw [if_neg hc]
    have hc' : cids.contains cid = false := by
      cases h : cids.contains cid
      · rfl
      · exact absurd h hc
    have hid : ∀ e ∈ els, (fun e =>
        if e.etype == "rectangle" && (e.id == cid && cids.contains cid) then
          { e with boundElements := e.boundElements ++ [(⟨aid, "arrow"⟩ : BoundRef)] }
        else e) e = e := by
      intro e _
      rw [hc']
      simp
    rw [List.map_congr_left hid]
    simp

theorem applyArrowBindings_eq_map (cids : List String) :
    ∀ (arrows els : List Element),
    applyArrowBindings cids els arrows = els.map (fun e =>
      if e.etype == "rectangle" && cids.contains e.id then
        { e with boundElements := e.boundElements ++ bindingRefs arrows e.id }
      else e) := by
  intro arrows
  induction arrows with
  | nil =>
    intro els
    show els = _
    have hid : ∀ e ∈ els, (fun e =>
        if e.etype == "rectangle" && cids.contains e.id then
          { e with boundElements := e.boundElements ++ bindingRefs [] e.id }
        else e) e = e := by
      intro e _
      simp [bindingRefs]
    rw [List.map_congr_left hid]
    simp
  | cons a rest ih =>
    intro els
    show applyArrowBindings cids
      (add_arrow_binding cids (add_arrow_binding cids els (arrowStartId a) a.id)
        (arrowEndId a) a.id) rest = _
    rw [ih, add_arrow_binding_eq_map, add_arrow_binding_eq_map, List.map_map,
      List.map_map]
    apply List.map_congr_left
    intro e _
    simp only [Function.comp, bindingRefs]
    by_cases hs : (e.id == arrowStartId a) = true
    · have hseq : arrowStartId a = e.id := (beq_iff_eq.mp hs).symm
      rw [hseq]
      by_cases ht : (e.id == arrowEndId a) = true
      · have hteq : arrowEndId a = e.id := (beq_iff_eq.mp ht).symm
        rw [hteq]
        cases hrect : e.etype == "rectangle" <;>
          by_cases hmem : e.id ∈ cids <;>
            simp [hrect, hmem, List.append_assoc]
      · have ht' : (e.id == arrowEndId a) = false := by
          cases h : (e.id == arrowEndId a)
          · rfl
          · exact absurd h ht
        rw [ht']
        cases hrect : e.etype == "rectangle" <;>
          by_cases hmem : e.id ∈ cids <;>
            simp [hrect, hmem, ht', List.append_assoc]
    · have hs' : (e.id == arrowStartId a) = false := by
        cases h : (e.id == arrowStartId a)
        · rfl
        · exact absurd h hs
      rw [hs']
      by_cases ht : (e.id == arrowEndId a) = true
      · have hteq : arrowEndId a = e.id := (beq_iff_eq.mp ht).symm
        rw [hteq]
        cases hrect : e.etype == "rectangle" <;>
          by_cases hmem : e.id ∈ cids <;>
            simp [hrect, hmem, hs', List.append_assoc]
      · have ht' : (e.id == arrowEndId a) = false := by
          cases h : (e.id == arrowEndId a)
          · rfl
          · exact absurd h ht
        rw [ht']
        cases hrect : e.etype == "rectangle" <;>
          by_cases hmem : e.id ∈ cids <;>
            simp [hrect, hmem, hs', ht', List.append_assoc]

/- ===== card-id and element-shape facts of the placement loops ===== -/

theorem goalsLoop_cids (rng : Nat → Nat) : ∀ (gs : List Goal) (k i : Nat) (y : ℚ)
    (pos : Positions),
    (goalsLoop rng k i y pos gs).2.2.1 = idList "goal-" i gs.length := by
  intro gs
  induction gs with
  | nil => intro k i y pos; rfl
  | cons g gs' ih =>
    intro k i y pos
    simp [goalsLoop, idList, ih, create_card]

theorem subjectsLoop_cids (rng : Nat → Nat) : ∀ (ss : List Subject) (k i : Nat) (y : ℚ)
    (pos : Positions),
    (subjectsLoop rng k i y pos ss).2.2.1 = idList "subject-" i ss.length := by
  intro ss
  induction ss with
  | nil => intro k i y pos; rfl
  | cons s ss' ih =>
    intro k i y pos
    simp [subjectsLoop, idList, ih, create_card]

theorem hypothesesLoop_cids (rng : Nat → Nat) : ∀ (hs : List Hypothesis) (k i : Nat)
    (y : ℚ) (pos : Positions),
    (hypothesesLoop rng k i y pos hs).2.2.1 = idList "hypothesis-" i hs.length := by
  intro hs
  induction hs with
  | nil => intro k i y pos; rfl
  | cons h hs' ih =>
    intro k i y pos
    simp [hypothesesLoop, idList, ih, create_card]

theorem goalsLoop_etype (rng : Nat → Nat) : ∀ (gs : List Goal) (k i : Nat) (y : ℚ)
    (pos : Positions), ∀ e ∈ (goalsLoop rng k i y pos gs).1,
    e.etype = "rectangle" ∨ e.etype = "text" := by
  intro gs
  induction gs with
  | nil => intro k i y pos e he; simp [goalsLoop] at he
  | cons g gs' ih =>
    intro k i y pos e he
    rw [goalsLoop] at he
    simp only [create_card] at he
    rcases List.mem_cons.mp he with rfl | he1
    · exact Or.inl rfl
    rcases List.mem_cons.mp he1 with rfl | he2
    · exact Or.inr rfl
    · exact ih _ _ _ _ e he2

theorem subjectsLoop_etype (rng : Nat → Nat) : ∀ (ss : List Subject) (k i : Nat)
    (y : ℚ) (pos : Positions), ∀ e ∈ (subjectsLoop rng k i y pos ss).1,
    e.etype = "rectangle" ∨ e.etype = "text" := by
  intro ss
  induction ss with
  | nil => intro k i y pos e he; simp [subjectsLoop] at he
  | cons s ss' ih =>
    intro k i y pos e he
    rw [subjectsLoop] at he
    simp only [create_card] at he
    rcases List.mem_cons.mp he with rfl | he1
    · exact Or.inl rfl
    rcases List.mem_cons.mp he1 with rfl | he2
    · exact Or.inr rfl
    · exact ih _ _ _ _ e he2

theorem hypothesesLoop_etype (rng : Nat → Nat) : ∀ (hs : List Hypothesis) (k i : Nat)
    (y : ℚ) (pos : Positions), ∀ e ∈ (hypothesesLoop rng k i y pos hs).1,
    e.etype = "rectangle" ∨ e.etype = "text" := by
  intro hs
  induction hs with
  | nil => intro k i y pos e he; simp [hypothesesLoop] at he
  | cons h hs' ih =>
    intro k i y pos e he
    rw [hypothesesLoop] at he
    simp only [create_card] at he
    rcases List.mem_cons.mp he with rfl | he1
    · exact Or.inl rfl
    rcases List.mem_cons.mp he1 with rfl | he2
    · exact Or.inr rfl
    · exact ih _ _ _ _ e he2

theorem tasksInner_etype (rng : Nat → Nat) : ∀ (ts : List Task) (k idx : Nat)
    (sy : ℚ) (j : Nat) (pos : Positions), ∀ e ∈ (tasksInner rng k idx sy j pos ts).1,
    e.etype = "rectangle" ∨ e.etype = "text" := by
  intro ts
  induction ts with
  | nil => intro k idx sy j pos e he; simp [tasksInner] at he
  | cons t ts' ih =>
    intro k idx sy j pos e he
    rw [tasksInner] at he
    simp only [create_card] at he
    rcases List.mem_cons.mp he with rfl | he1
    · exact Or.inl rfl
    rcases List.mem_cons.mp he1 with rfl | he2
    · exact Or.inr rfl
    · exact ih _ _ _ _ _ e he2

theorem tasksOuter_etype (rng : Nat → Nat) (tasks : List Task) :
    ∀ (hyps : List Hypothesis) (k idx : Nat) (pos : Positions),
    ∀ e ∈ (tasksOuter rng k tasks idx pos hyps).1,
    e.etype = "rectangle" ∨ e.etype = "text" := by
  intro hyps
  induction hyps with
  | nil => intro k idx pos e he; simp [tasksOuter] at he
  | cons h hs ih =>
    intro k idx pos e he
    by_cases hemp : (tasks.filter (fun t => t.hypothesis_id == h.id)).isEmpty
    · rw [tasksOuter, if_pos hemp] at he
      exact ih _ _ _ e he
    · rw [tasksOuter, if_neg hemp] at he
      cases hl : List.lookup h.id pos with
      | none =>
        rw [hl] at he
        exact ih _ _ _ e he
      | some hp =>
        rw [hl] at he
        simp only at he
        rcases List.mem_append.mp he with he1 | he2
        · exact tasksInner_etype rng _ _ _ _ _ _ e he1
        · exact ih _ _ _ e he2

/-- The binding pass does not change how many elements satisfy a predicate
that ignores `boundElements`. -/
theorem applyArrowBindings_countP (cids : List String) (arrows els : List Element)
    (p : Element → Bool)
    (hp : ∀ (e : Element) (bE : List BoundRef),
      p { e with boundElements := bE } = p e) :
    (applyArrowBindings cids els arrows).countP p = els.countP p := by
  rw [applyArrowBindings_eq_map, List.countP_map]
  refine List.countP_congr (fun e _ => ?_)
  simp only [Function.comp]
  split
  · rw [hp]
  · rfl

theorem taskArrowsLoop_etype (rng : Nat → Nat) (pos : Positions) :
    ∀ (ts : List Task) (k idx : Nat),
    ∀ a ∈ (taskArrowsLoop rng k pos idx ts).1, a.etype = "arrow" := by
  intro ts
  induction ts with
  | nil => intro k idx a ha; simp [taskArrowsLoop] at ha
  | cons t ts' ih =>
    intro k idx a ha
    cases h1 : List.lookup t.hypothesis_id pos with
    | none =>
      rw [taskArrowsLoop, h1] at ha
      exact ih k idx a ha
    | some hp =>
      rw [taskArrowsLoop, h1] at ha
      cases h2 : List.lookup t.id pos with
      | none =>
        rw [h2] at ha
        exact ih k idx a ha
      | some tp =>
        rw [h2] at ha
        simp only at ha
        rcases List.mem_cons.mp ha with rfl | ha'
        · rfl
        · exact ih _ _ a ha'

/- ===== convertBuilt / convertArrows facts ===== -/

theorem convertBuilt_pos_keys (rng : Nat → Nat) (m : HypothesisMap) (title : String) :
    ((convertBuilt rng m title).2.2.1).map Prod.fst = (registryIds m).reverse := by
  simp only [convertBuilt]
  exact pipeline_pos4_keys rng m _ _ _ _

theorem convertBuilt_lookup_isSome (rng : Nat → Nat) (m : HypothesisMap)
    (title : String) (x : String) :
    ((List.lookup x (convertBuilt rng m title).2.2.1).isSome = true)
      ↔ x ∈ registryIds m := by
  rw [lookup_isSome_iff_mem_keys, convertBuilt_pos_keys, List.mem_reverse]

theorem convertBuilt_lookup_eq_contains (rng : Nat → Nat) (m : HypothesisMap)
    (title : String) (x : String) :
    (List.lookup x (convertBuilt rng m title).2.2.1).isSome
      = (registryIds m).contains x := by
  by_cases h : x ∈ registryIds m
  · rw [(convertBuilt_lookup_isSome rng m title x).mpr h]
    symm
    simpa using h
  · have h1 : (List.lookup x (convertBuilt rng m title).2.2.1).isSome = false := by
      cases hs : (List.lookup x (convertBuilt rng m title).2.2.1).isSome
      · rfl
      · exact absurd ((convertBuilt_lookup_isSome rng m title x).mp hs) h
    rw [h1]
    symm
    simpa using h

theorem convertBuilt_cids (rng : Nat → Nat) (m : HypothesisMap) (title : String) :
    (convertBuilt rng m title).2.1
      = idList "goal-" 0 m.goals.length
        ++ idList "subject-" 0 m.subjects.length
        ++ idList "hypothesis-" 0 m.hypotheses.length
        ++ idList "task-" 0 (placedTasks m.tasks m.hypotheses).length := by
  simp only [convertBuilt, tasksRes, hypsRes, subjectsRes, goalsRes]
  rw [goalsLoop_cids, subjectsLoop_cids, hypothesesLoop_cids, tasksOuter_cids]
  intro h hm
  rw [lookup_isSome_iff_mem_keys, pipeline_pos3_keys]
  refine List.mem_append_left _ (List.mem_append_left _ ?_)
  rw [List.mem_reverse]
  exact List.mem_map_of_mem (·.id) hm

theorem convertBuilt_etype (rng : Nat → Nat) (m : HypothesisMap) (title : String) :
    ∀ e ∈ (convertBuilt rng m title).1, e.etype = "rectangle" ∨ e.etype = "text" := by
  simp only [convertBuilt]
  intro e he
  rcases List.mem_cons.mp he with rfl | he
  · exact Or.inr rfl
  rcases List.mem_cons.mp he with rfl | he
  · exact Or.inr rfl
  rcases List.mem_cons.mp he with rfl | he
  · exact Or.inr rfl
  rcases List.mem_cons.mp he with rfl | he
  · exact Or.inr rfl
  rcases List.mem_cons.mp he with rfl | he
  · exact Or.inr rfl
  rcases List.mem_append.mp he with he1 | he2
  rcases List.mem_append.mp he1 with he3 | he4
  rcases List.mem_append.mp he3 with he5 | he6
  · exact goalsLoop_etype rng _ _ _ _ _ e he5
  · exact subjectsLoop_etype rng _ _ _ _ _ e he6
  · exact hypothesesLoop_etype rng _ _ _ _ _ e he4
  · exact tasksOuter_etype rng _ _ _ _ _ e he2

theorem convertArrows_etype (rng : Nat → Nat) (k : Nat) (m : HypothesisMap)
    (pos : Positions) : ∀ a ∈ convertArrows rng k m pos, a.etype = "arrow" := by
  simp only [convertArrows]
  intro a ha
  rcases List.mem_append.mp ha with ha1 | ha2
  rcases List.mem_append.mp ha1 with ha3 | ha4
  · exact subjectArrowsLoop_etype rng _ _ _ _ _ a ha3
  · exact hypothesisArrowsLoop_etype rng _ _ _ _ a ha4
  · exact taskArrowsLoop_etype rng _ _ _ _ a ha2

/-- The resolvability test on a hypothesis, phrased against the final
registry content rather than the registry value itself. -/
def hypResolvable (m : HypothesisMap) (h : Hypothesis) : Bool :=
  match h.subject_id with
  | none => false
  | some sid => !(sid == "") && (registryIds m).contains sid

/-- The connectability test on a task, phrased against the final registry
content. -/
def taskResolvable (m : HypothesisMap) (t : Task) : Bool :=
  (registryIds m).contains t.hypothesis_id && (registryIds m).contains t.id

theorem convertArrows_length (rng : Nat → Nat) (k : Nat) (m : HypothesisMap)
    (title : String) :
    (convertArrows rng k m (convertBuilt rng m title).2.2.1).length
      = (if m.goals.isEmpty then 0 else m.subjects.length)
        + (m.hypotheses.filter (hypResolvable m)).length
        + (m.tasks.filter (taskResolvable m)).length := by
  simp only [convertArrows]
  rw [List.length_append, List.length_append]
  have hsub : ∀ (k0 : Nat),
      (subjectArrowsLoop rng k0 m.goals (convertBuilt rng m title).2.2.1 0
        m.subjects).1.length
      = if m.goals.isEmpty then 0 else m.subjects.length := by
    intro k0
    cases hg : m.goals with
    | nil => simp [subjectArrowsLoop_length_nil]
    | cons g0 gs =>
      have hg0 : (List.lookup g0.id (convertBuilt rng m title).2.2.1).isSome = true := by
        apply (convertBuilt_lookup_isSome rng m title g0.id).mpr
        refine List.mem_append_left _ (List.mem_append_left _ (List.mem_append_left _ ?_))
        exact List.mem_map_of_mem (·.id) (hg ▸ List.mem_cons_self g0 gs)
      rw [subjectArrowsLoop_length_cons rng _ g0 gs hg0]
      have hall : ∀ s ∈ m.subjects,
          ((List.lookup s.id (convertBuilt rng m title).2.2.1).isSome) = true := by
        intro s hs
        apply (convertBuilt_lookup_isSome rng m title s.id).mpr
        refine List.mem_append_left _ (List.mem_append_left _ (List.mem_append_right _ ?_))
        exact List.mem_map_of_mem (·.id) hs
      rw [List.filter_eq_self.mpr hall]
      simp [hg]
  have hhyp : ∀ (k0 idx0 : Nat),
      (hypothesisArrowsLoop rng k0 (convertBuilt rng m title).2.2.1 idx0
        m.hypotheses).1.length
      = (m.hypotheses.filter (hypResolvable m)).length := by
    intro k0 idx0
    rw [hypothesisArrowsLoop_length]
    congr 1
    refine List.filter_congr (fun h hm => ?_)
    have hh : (List.lookup h.id (convertBuilt rng m title).2.2.1).isSome = true := by
      apply (convertBuilt_lookup_isSome rng m title h.id).mpr
      refine List.mem_append_left _ (List.mem_append_right _ ?_)
      exact List.mem_map_of_mem (·.id) hm
    unfold hypConnectable hypResolvable
    cases hsid : h.subject_id with
    | none => rfl
    | some sid =>
      show (!(sid == "") && (List.lookup sid (convertBuilt rng m title).2.2.1).isSome
          && (List.lookup h.id (convertBuilt rng m title).2.2.1).isSome)
        = (!(sid == "") && (registryIds m).contains sid)
      rw [convertBuilt_lookup_eq_contains rng m title sid, hh, Bool.and_true]
  have htask : ∀ (k0 idx0 : Nat),
      (taskArrowsLoop rng k0 (convertBuilt rng m title).2.2.1 idx0 m.tasks).1.length
      = (m.tasks.filter (taskResolvable m)).length := by
    intro k0 idx0
    rw [taskArrowsLoop_length]
    congr 1
    refine List.filter_congr (fun t _ => ?_)
    unfold taskResolvable
    rw [convertBuilt_lookup_eq_contains, convertBuilt_lookup_eq_contains]
  rw [hsub, hhyp, htask]

/-- C1 (amended): in the output, the number of connectors equals
`(count(subjects) if goals non-empty else 0)` plus the number of
hypotheses whose `subject_id` is set, non-empty and present in the
position registry (which holds goal, subject, hypothesis and placed-task
ids — not only subject ids), plus the number of tasks whose
`hypothesis_id` and own id are both present in the registry (in
particular, a task whose `hypothesis_id` matches no placed entity gets no
connector). -/
theorem C1_connector_count (rng : Nat → Nat) (m : HypothesisMap) (title : String) :
    ((convert_to_excalidraw rng m title).elements.filter
        (fun e => e.etype == "arrow")).length
      = (if m.goals.isEmpty then 0 else m.subjects.length)
        + (m.hypotheses.filter (hypResolvable m)).length
        + (m.tasks.filter (taskResolvable m)).length := by
  have hels : (convert_to_excalidraw rng m title).elements
      = applyArrowBindings (convertBuilt rng m title).2.1 (convertBuilt rng m title).1
          (convertArrows rng (convertBuilt rng m title).2.2.2 m
            (convertBuilt rng m title).2.2.1)
        ++ convertArrows rng (convertBuilt rng m title).2.2.2 m
            (convertBuilt rng m title).2.2.1 := rfl
  rw [hels, List.filter_append, List.length_append]
  have h1 : ((applyArrowBindings (convertBuilt rng m title).2.1
      (convertBuilt rng m title).1
      (convertArrows rng (convertBuilt rng m title).2.2.2 m
        (convertBuilt rng m title).2.2.1)).filter
      (fun e => e.etype == "arrow")).length = 0 := by
    rw [← List.countP_eq_length_filter]
    rw [applyArrowBindings_countP _ _ _ (fun e => e.etype == "arrow")
      (fun e bE => rfl)]
    refine List.countP_eq_zero.mpr (fun e he => ?_)
    rcases convertBuilt_etype rng m title e he with h | h <;> simp [h]
  have h2 : ((convertArrows rng (convertBuilt rng m title).2.2.2 m
      (convertBuilt rng m title).2.2.1).filter (fun e => e.etype == "arrow"))
      = convertArrows rng (convertBuilt rng m title).2.2.2 m
          (convertBuilt rng m title).2.2.1 :=
    List.filter_eq_self.mpr (fun a ha => by
      simp [convertArrows_etype rng _ m _ a ha])
  rw [h1, h2, convertArrows_length]
  omega

/-- The connector-count formula exactly as claim C1 states it: the
hypothesis term counts only `subject_id`s that resolve to a placed
subject, and the task term counts every task. -/
def claimC1count (m : HypothesisMap) : Nat :=
  (if m.goals.isEmpty then 0 else m.subjects.length)
    + (m.hypotheses.filter (fun h =>
        match h.subject_id with
        | none => false
        | some sid => !(sid == "") && (m.subjects.map (·.id)).contains sid)).length
    + m.tasks.length

/-- A map exhibiting both gaps in claim C1's formula: a hypothesis whose
`subject_id` names the goal (counted by the code, not by the claim) and
two tasks with a dangling `hypothesis_id` (counted by the claim, not by
the code). -/
def mC1 : HypothesisMap :=
  { goals := [{ description := "g", id := "g1" }]
    subjects := []
    hypotheses := [{ if_part := "a", then_part := "b", because_part := "c",
                     then_metric := "d", subject_id := some "g1", id := "h1" }]
    tasks := [{ description := "t", hypothesis_id := "zz", id := "t1" },
              { description := "u", hypothesis_id := "zz", id := "t2" }] }

/-- C1 counterexample: on `mC1` the document has 1 connector while the
claim's formula yields 2. -/
theorem C1_counterexample :
    ((convert_to_excalidraw rng0 mC1 "t").elements.filter
        (fun e => e.etype == "arrow")).length = 1 ∧ claimC1count mC1 = 2 ∧ (1 : Nat) ≠ 2 :=
  ⟨by decide, by decide, by decide⟩

/-- C3 witness at a concrete input. -/
theorem C3_wrap_witness :
    (∀ l ∈ splitOnChar '\n' (wrap_text "ab cd".data 3),
        l.length ≤ 3 ∨
          (3 < l.length ∧
            ∃ line ∈ splitOnChar '\n' ("ab cd".data), l ∈ splitOnChar ' ' line)) ∧
    ('\n' ∉ "ab cd".data →
        (splitOnChar ' '
            (joinWith [' '] (splitOnChar '\n' (wrap_text "ab cd".data 3)))).filter
            (fun p => !p.isEmpty)
          = (splitOnChar ' ' "ab cd".data).filter (fun p => !p.isEmpty)) :=
  C3_wrap_width_bound_and_word_preservation "ab cd".data 3 (by decide)

/-- C9 witness at a concrete input. -/
theorem C9_wrap_idempotent_witness :
    wrap_text (wrap_text "ab cd ef".data 5) 5 = wrap_text "ab cd ef".data 5 :=
  C9_wrap_idempotent "ab cd ef".data 5 (by decide)

/- ===== rectangle counts (C10) ===== -/

theorem goalsLoop_rect_countP (rng : Nat → Nat) : ∀ (gs : List Goal) (k i : Nat)
    (y : ℚ) (pos : Positions),
    (goalsLoop rng k i y pos gs).1.countP (fun e => e.etype == "rectangle")
      = gs.length := by
  intro gs
  induction gs with
  | nil => intro k i y pos; rfl
  | cons g gs' ih =>
    intro k i y pos
    simp [goalsLoop, create_card, List.countP_cons, ih]

theorem subjectsLoop_rect_countP (rng : Nat → Nat) : ∀ (ss : List Subject) (k i : Nat)
    (y : ℚ) (pos : Positions),
    (subjectsLoop rng k i y pos ss).1.countP (fun e => e.etype == "rectangle")
      = ss.length := by
  intro ss
  induction ss with
  | nil => intro k i y pos; rfl
  | cons s ss' ih =>
    intro k i y pos
    simp [subjectsLoop, create_card, List.countP_cons, ih]

theorem hypothesesLoop_rect_countP (rng : Nat → Nat) : ∀ (hs : List Hypothesis)
    (k i : Nat) (y : ℚ) (pos : Positions),
    (hypothesesLoop rng k i y pos hs).1.countP (fun e => e.etype == "rectangle")
      = hs.length := by
  intro hs
  induction hs with
  | nil => intro k i y pos; rfl
  | cons h hs' ih =>
    intro k i y pos
    simp [hypothesesLoop, create_card, List.countP_cons, ih]

theorem tasksInner_rect_countP (rng : Nat → Nat) : ∀ (ts : List Task) (k idx : Nat)
    (sy : ℚ) (j : Nat) (pos : Positions),
    (tasksInner rng k idx sy j pos ts).1.countP (fun e => e.etype == "rectangle")
      = ts.length := by
  intro ts
  induction ts with
  | nil => intro k idx sy j pos; rfl
  | cons t ts' ih =>
    intro k idx sy j pos
    simp [tasksInner, create_card, List.countP_cons, ih]

theorem tasksOuter_rect_countP (rng : Nat → Nat) (tasks : List Task) :
    ∀ (hyps : List Hypothesis) (k idx : Nat) (pos : Positions),
    (∀ h ∈ hyps, (List.lookup h.id pos).isSome = true) →
    (tasksOuter rng k tasks idx pos hyps).1.countP (fun e => e.etype == "rectangle")
      = (placedTasks tasks hyps).length := by
  intro hyps
  induction hyps with
  | nil => intro k idx pos _; rfl
  | cons h hs ih =>
    intro k idx pos hk
    have hh : (List.lookup h.id pos).isSome = true := hk h (List.mem_cons_self h hs)
    obtain ⟨hp, hhp⟩ := Option.isSome_iff_exists.mp hh
    have hks : ∀ h' ∈ hs, (List.lookup h'.id pos).isSome = true :=
      fun h' hm => hk h' (List.mem_cons_of_mem h hm)
    by_cases hemp : (tasks.filter (fun t => t.hypothesis_id == h.id)).isEmpty
    · rw [tasksOuter, if_pos hemp, ih k idx pos hks]
      have : placedTasks tasks (h :: hs) = placedTasks tasks hs := by
        simp only [placedTasks, List.flatMap_cons]
        rw [List.isEmpty_iff.mp hemp]
        simp
      rw [this]
    · rw [tasksOuter, if_neg hemp, hhp]
      simp only [List.countP_append]
      rw [tasksInner_rect_countP, ih]
      · rw [show placedTasks tasks (h :: hs)
            = tasks.filter (fun t => t.hypothesis_id == h.id) ++ placedTasks tasks hs
          from by simp [placedTasks]]
        simp
      · intro h' hm
        rw [tasksInner_pos]
        exact lookup_isSome_append_right (hks h' hm)

/-- Rectangle count of the whole document: one per goal, subject and
hypothesis card, plus one per placed task. -/
theorem convert_rect_count (rng : Nat → Nat) (m : HypothesisMap) (title : String) :
    ((convert_to_excalidraw rng m title).elements.filter
        (fun e => e.etype == "rectangle")).length
      = m.goals.length + m.subjects.length + m.hypotheses.length
        + (placedTasks m.tasks m.hypotheses).length := by
  have hels : (convert_to_excalidraw rng m title).elements
      = applyArrowBindings (convertBuilt rng m title).2.1 (convertBuilt rng m title).1
          (convertArrows rng (convertBuilt rng m title).2.2.2 m
            (convertBuilt rng m title).2.2.1)
        ++ convertArrows rng (convertBuilt rng m title).2.2.2 m
            (convertBuilt rng m title).2.2.1 := rfl
  rw [hels, ← List.countP_eq_length_filter, List.countP_append]
  have h2 : (convertArrows rng (convertBuilt rng m title).2.2.2 m
      (convertBuilt rng m title).2.2.1).countP (fun e => e.etype == "rectangle") = 0 := by
    refine List.countP_eq_zero.mpr (fun a ha => ?_)
    simp [convertArrows_etype rng _ m _ a ha]
  rw [h2, applyArrowBindings_countP _ _ _ (fun e => e.etype == "rectangle")
    (fun e bE => rfl)]
  show ((convertBuilt rng m title).1.countP (fun e => e.etype == "rectangle")) + 0 = _
  simp only [convertBuilt, tasksRes, hypsRes, subjectsRes, goalsRes, labelRes1,
    labelRes2, labelRes3, labelRes4, titleRes]
  rw [List.countP_cons_of_neg, List.countP_cons_of_neg, List.countP_cons_of_neg,
    List.countP_cons_of_neg, List.countP_cons_of_neg]
  · rw [List.countP_append, List.countP_append, List.countP_append]
    rw [goalsLoop_rect_countP, subjectsLoop_rect_countP, hypothesesLoop_rect_countP,
      tasksOuter_rect_countP]
    · omega
    · intro h hm
      rw [lookup_isSome_iff_mem_keys, pipeline_pos3_keys]
      refine List.mem_append_left _ (List.mem_append_left _ ?_)
      rw [List.mem_reverse]
      exact List.mem_map_of_mem (·.id) hm
  · simp [create_label]
  · simp [create_label]
  · simp [create_label]
  · simp [create_label]
  · simp [mkTitle]

/-- C10: a task whose `hypothesis_id` matches no hypothesis id is dropped
entirely: it is not among the placed tasks, the document's rectangle
count equals the four category sizes with only placed tasks counted, the
`card_elements` registry holds task card ids only for placed tasks, and
the position registry's keys are exactly the goal, subject and hypothesis
ids plus the placed tasks' ids. -/
theorem C10_dangling_task_dropped (rng : Nat → Nat) (m : HypothesisMap)
    (title : String) (t : Task) (ht : t ∈ m.tasks)
    (hbad : t.hypothesis_id ∉ m.hypotheses.map (·.id)) :
    t ∉ placedTasks m.tasks m.hypotheses ∧
    ((convert_to_excalidraw rng m title).elements.filter
        (fun e => e.etype == "rectangle")).length
      = m.goals.length + m.subjects.length + m.hypotheses.length
        + (placedTasks m.tasks m.hypotheses).length ∧
    (convertBuilt rng m title).2.1
      = idList "goal-" 0 m.goals.length
        ++ idList "subject-" 0 m.subjects.length
        ++ idList "hypothesis-" 0 m.hypotheses.length
        ++ idList "task-" 0 (placedTasks m.tasks m.hypotheses).length ∧
    ((convertBuilt rng m title).2.2.1).map Prod.fst = (registryIds m).reverse := by
  refine ⟨?_, convert_rect_count rng m title, convertBuilt_cids rng m title,
    convertBuilt_pos_keys rng m title⟩
  intro hmem
  unfold placedTasks at hmem
  rcases List.mem_flatMap.mp hmem with ⟨h, hh, hf⟩
  have := List.of_mem_filter hf
  have hid : t.hypothesis_id = h.id := by simpa using this
  exact hbad (hid ▸ List.mem_map_of_mem (·.id) hh)

/-- A map whose single task dangles. -/
def mC10 : HypothesisMap :=
  { goals := []
    subjects := []
    hypotheses := [{ if_part := "a", then_part := "b", because_part := "c",
                     then_metric := "d", id := "h1" }]
    tasks := [{ description := "t", hypothesis_id := "nope", id := "t1" }] }

/- ===== C6: vertical centering of task blocks ===== -/

theorem tasksInner_mem_rect (rng : Nat → Nat) : ∀ (ts : List Task) (k idx : Nat)
    (sy : ℚ) (j0 : Nat) (pos : Positions) (j : Nat) (t : Task),
    ts[j]? = some t →
    ∃ rect ∈ (tasksInner rng k idx sy j0 pos ts).1,
      rect.etype = "rectangle" ∧ rect.x = 1400 ∧ rect.width = 240 ∧
      rect.height = 100 ∧ rect.y = sy + ((j0 : ℚ) + (j : ℚ)) * (100 + 15) := by
  intro ts
  induction ts with
  | nil => intro k idx sy j0 pos j t hj; simp at hj
  | cons t0 ts' ih =>
    intro k idx sy j0 pos j t hj
    cases j with
    | zero =>
      refine ⟨(create_card rng k ("task-" ++ decimalStr idx)
        ("task-text-" ++ decimalStr idx) 1400 (sy + (j0 : ℚ) * (100 + 15)) 240 100
        COLORS_task (wrapS t0.description 25) 12).1, ?_, rfl, rfl, rfl, rfl, by
          show sy + (j0 : ℚ) * (100 + 15) = sy + ((j0 : ℚ) + (0 : ℚ)) * (100 + 15)
          ring⟩
      rw [tasksInner]
      exact List.mem_cons_self _ _
    | succ j' =>
      have hj' : ts'[j']? = some t := by simpa using hj
      obtain ⟨rect, hmem, hprops⟩ := ih _ (idx + 1) sy (j0 + 1) _ j' t hj'
      refine ⟨rect, ?_, hprops.1, hprops.2.1, hprops.2.2.1, hprops.2.2.2.1, ?_⟩
      · rw [tasksInner]
        exact List.mem_cons_of_mem _ (List.mem_cons_of_mem _ hmem)
      · rw [hprops.2.2.2.2]
        push_cast
        ring

theorem tasksOuter_mem_rect (rng : Nat → Nat) (tasks : List Task) :
    ∀ (hyps : List Hypothesis) (k idx : Nat) (pos : Positions) (i : Nat)
    (h : Hypothesis) (hp : PosEntry),
    hyps[i]? = some h →
    List.lookup h.id pos = some hp →
    (∀ t ∈ tasks, ∀ h' ∈ hyps, t.id ≠ h'.id) →
    ∀ (j : Nat) (t : Task),
    (tasks.filter (fun x => x.hypothesis_id == h.id))[j]? = some t →
    ∃ rect ∈ (tasksOuter rng k tasks idx pos hyps).1,
      rect.etype = "rectangle" ∧ rect.x = 1400 ∧ rect.width = 240 ∧
      rect.height = 100 ∧
      rect.y = hp.y + (hp.h
          - (((tasks.filter (fun x => x.hypothesis_id == h.id)).length : ℚ) * 100
            + (((tasks.filter (fun x => x.hypothesis_id == h.id)).length - 1 : Nat) : ℚ)
              * 15)) / 2
        + (j : ℚ) * (100 + 15) := by
  intro hyps
  induction hyps with
  | nil => intro k idx pos i h hp hi; simp at hi
  | cons h0 hs ih =>
    intro k idx pos i h hp hi hlp hdisj j t hj
    cases i with
    | zero =>
      have hh : h0 = h := by simpa using hi
      subst hh
      have hne : ¬(tasks.filter (fun x => x.hypothesis_id == h0.id)).isEmpty := by
        intro hemp
        rw [List.isEmpty_iff.mp hemp] at hj
        simp at hj
      rw [tasksOuter, if_neg hne, hlp]
      obtain ⟨rect, hmem, hprops⟩ := tasksInner_mem_rect rng
        (tasks.filter (fun x => x.hypothesis_id == h0.id)) k idx
        (hp.y + (hp.h
          - (((tasks.filter (fun x => x.hypothesis_id == h0.id)).length : ℚ) * 100
            + (((tasks.filter (fun x => x.hypothesis_id == h0.id)).length - 1 : Nat) : ℚ)
              * 15)) / 2) 0 pos j t hj
      refine ⟨rect, List.mem_append_left _ hmem, hprops.1, hprops.2.1, hprops.2.2.1,
        hprops.2.2.2.1, ?_⟩
      rw [hprops.2.2.2.2]
      push_cast
      ring
    | succ i' =>
      have hi' : hs[i']? = some h := by simpa using hi
      have hdisj' : ∀ t' ∈ tasks, ∀ h' ∈ hs, t'.id ≠ h'.id :=
        fun t' ht' h' hh' => hdisj t' ht' h' (List.mem_cons_of_mem h0 hh')
      have hmemh : h ∈ hs := List.getElem?_mem hi'
      by_cases hemp : (tasks.filter (fun x => x.hypothesis_id == h0.id)).isEmpty
      · rw [tasksOuter, if_pos hemp]
        exact ih k idx pos i' h hp hi' hlp hdisj' j t hj
      · rw [tasksOuter, if_neg hemp]
        cases hl0 : List.lookup h0.id pos with
        | none => exact ih k idx pos i' h hp hi' hlp hdisj' j t hj
        | some hp0 =>
          simp only
          have hlp1 : List.lookup h.id
              ((tasksInner rng k idx
                (hp0.y + (hp0.h
                  - (((tasks.filter (fun x => x.hypothesis_id == h0.id)).length : ℚ) * 100
                    + (((tasks.filter (fun x => x.hypothesis_id == h0.id)).length - 1 : Nat) : ℚ)
                      * 15)) / 2) 0 pos
                (tasks.filter (fun x => x.hypothesis_id == h0.id))).2.1) = some hp := by
            rw [tasksInner_pos]
            rw [lookup_append_not_mem]
            · exact hlp
            · intro hmem
              rw [List.map_reverse, List.mem_reverse, taskPosInner_keys] at hmem
              rcases List.mem_map.mp hmem with ⟨t', ht', hte⟩
              exact hdisj t' (List.mem_of_mem_filter ht') h
                (List.mem_cons_of_mem h0 hmemh) hte
          obtain ⟨rect, hmem, hprops⟩ := ih _ _ _ i' h hp hi' hlp1 hdisj' j t hj
          exact ⟨rect, List.mem_append_right _ hmem, hprops⟩

theorem hypPosList_reverse_lookup : ∀ (hs : List Hypothesis) (i0 : Nat) (y : ℚ)
    (i : Nat) (h : Hypothesis),
    (hs.map (·.id)).Nodup → hs[i]? = some h →
    List.lookup h.id ((hypPosList i0 y hs).reverse)
      = some (PosEntry.mk 950 (y + 530 * (i : ℚ)) 380 350
          ("hypothesis-" ++ decimalStr (i0 + i))) := by
  intro hs
  induction hs with
  | nil => intro i0 y i h _ hi; simp at hi
  | cons h0 hs' ih =>
    intro i0 y i h hnd hi
    rw [hypPosList, List.reverse_cons]
    cases i with
    | zero =>
      have hh : h0 = h := by simpa using hi
      subst hh
      rw [List.map_cons, List.nodup_cons] at hnd
      rw [lookup_append_not_mem]
      · rw [lookup_cons]
        simp
      · rw [List.map_reverse, List.mem_reverse, hypPosList_keys]
        exact hnd.1
    | succ i' =>
      have hi' : hs'[i']? = some h := by simpa using hi
      rw [List.map_cons, List.nodup_cons] at hnd
      have := ih (i0 + 1) (y + 350 + 180) i' h hnd.2 hi'
      rw [lookup_append_some this]
      simp only [Option.some.injEq, PosEntry.mk.injEq, true_and]
      refine ⟨by push_cast; ring, ?_⟩
      have harg : i0 + 1 + i' = i0 + (i' + 1) := by omega
      rw [harg]

/-- The binding pass keeps each element's geometry: the image of a member
is a member with the same type, position and size. -/
theorem applyArrowBindings_mem_geometry (cids : List String)
    (arrows els : List Element) {e : Element} (he : e ∈ els) :
    ∃ e' ∈ applyArrowBindings cids els arrows,
      e'.etype = e.etype ∧ e'.x = e.x ∧ e'.y = e.y ∧ e'.width = e.width ∧
      e'.height = e.height := by
  rw [applyArrowBindings_eq_map]
  refine ⟨_, List.mem_map_of_mem _ he, ?_⟩
  split <;> exact ⟨rfl, rfl, rfl, rfl, rfl⟩

theorem hypsRes_lookup (rng : Nat → Nat) (m : HypothesisMap) (title : String)
    (hnd : (m.hypotheses.map (·.id)).Nodup)
    (i : Nat) (h : Hypothesis) (hi : m.hypotheses[i]? = some h) :
    List.lookup h.id (hypsRes rng m title).2.1
      = some (PosEntry.mk 950 (110 + 530 * (i : ℚ)) 380 350
          ("hypothesis-" ++ decimalStr i)) := by
  unfold hypsRes
  rw [hypothesesLoop_pos,
    lookup_append_some (hypPosList_reverse_lookup m.hypotheses 0 110 i h hnd hi)]
  simp

theorem tasksRes_task_rect (rng : Nat → Nat) (m : HypothesisMap) (title : String)
    (hnd : (m.hypotheses.map (·.id)).Nodup)
    (htd : ∀ t ∈ m.tasks, ∀ h' ∈ m.hypotheses, t.id ≠ h'.id)
    (i : Nat) (h : Hypothesis) (hi : m.hypotheses[i]? = some h)
    (j : Nat) (t : Task)
    (hj : (m.tasks.filter (fun x => x.hypothesis_id == h.id))[j]? = some t) :
    ∃ rect ∈ (tasksRes rng m title).1,
      rect.etype = "rectangle" ∧ rect.x = 1400 ∧ rect.width = 240 ∧
      rect.height = 100 ∧
      rect.y = (110 + 530 * (i : ℚ))
        + (350 - (((m.tasks.filter (fun x => x.hypothesis_id == h.id)).length : ℚ) * 100
            + (((m.tasks.filter (fun x => x.hypothesis_id == h.id)).length - 1 : Nat) : ℚ)
              * 15)) / 2
        + (j : ℚ) * (100 + 15) := by
  unfold tasksRes
  exact tasksOuter_mem_rect rng m.tasks m.hypotheses (hypsRes rng m title).2.2.2 0
    (hypsRes rng m title).2.1 i h
    (PosEntry.mk 950 (110 + 530 * (i : ℚ)) 380 350 ("hypothesis-" ++ decimalStr i))
    hi (hypsRes_lookup rng m title hnd i h hi) htd j t hj

/-- C6: for a hypothesis at index `i` with `n ≥ 1` associated tasks (under
the data model's stable-identifier assumption: hypothesis ids distinct and
no task id equal to a hypothesis id), the `j`-th associated task's card is
a 240×100 rectangle at `x = 1400` and
`y = hyp_y + (hyp_height − block_height)/2 + j·(task_height + 15)` with
`hyp_y = 110 + 530·i`, `hyp_height = 350`, `task_height = 100` and
`block_height = n·100 + (n−1)·15`; the block's top margin inside the
hypothesis card's vertical span equals its bottom margin. -/
theorem C6_task_block_centering (rng : Nat → Nat) (m : HypothesisMap)
    (title : String)
    (hnd : (m.hypotheses.map (·.id)).Nodup)
    (htd : ∀ t ∈ m.tasks, ∀ h' ∈ m.hypotheses, t.id ≠ h'.id)
    (i : Nat) (h : Hypothesis) (hi : m.hypotheses[i]? = some h)
    (j : Nat) (t : Task)
    (hj : (m.tasks.filter (fun x => x.hypothesis_id == h.id))[j]? = some t) :
    (∃ rect ∈ (convert_to_excalidraw rng m title).elements,
      rect.etype = "rectangle" ∧ rect.x = 1400 ∧ rect.width = 240 ∧
      rect.height = 100 ∧
      rect.y = (110 + 530 * (i : ℚ))
        + (350 - (((m.tasks.filter (fun x => x.hypothesis_id == h.id)).length : ℚ) * 100
            + (((m.tasks.filter (fun x => x.hypothesis_id == h.id)).length - 1 : Nat) : ℚ)
              * 15)) / 2
        + (j : ℚ) * (100 + 15)) ∧
    (((110 + 530 * (i : ℚ))
        + (350 - (((m.tasks.filter (fun x => x.hypothesis_id == h.id)).length : ℚ) * 100
            + (((m.tasks.filter (fun x => x.hypothesis_id == h.id)).length - 1 : Nat) : ℚ)
              * 15)) / 2)
      - (110 + 530 * (i : ℚ))
    = ((110 + 530 * (i : ℚ)) + 350)
      - (((110 + 530 * (i : ℚ))
          + (350 - (((m.tasks.filter (fun x => x.hypothesis_id == h.id)).length : ℚ) * 100
              + (((m.tasks.filter (fun x => x.hypothesis_id == h.id)).length - 1 : Nat) : ℚ)
                * 15)) / 2)
        + (((m.tasks.filter (fun x => x.hypothesis_id == h.id)).length : ℚ) * 100
            + (((m.tasks.filter (fun x => x.hypothesis_id == h.id)).length - 1 : Nat) : ℚ)
              * 15))) := by
  refine ⟨?_, by ring⟩
  obtain ⟨rect, hmem, h1, h2, h3, h4, h5⟩ :=
    tasksRes_task_rect rng m title hnd htd i h hi j t hj
  have hmemB : rect ∈ (convertBuilt rng m title).1 := by
    show rect ∈ (titleRes rng title).1 :: (labelRes1 rng title).1 ::
      (labelRes2 rng title).1 :: (labelRes3 rng title).1 :: (labelRes4 rng title).1 ::
      ((goalsRes rng m title).1 ++ (subjectsRes rng m title).1
        ++ (hypsRes rng m title).1 ++ (tasksRes rng m title).1)
    refine List.mem_cons_of_mem _ (List.mem_cons_of_mem _ (List.mem_cons_of_mem _
      (List.mem_cons_of_mem _ (List.mem_cons_of_mem _ ?_))))
    exact List.mem_append_right _ hmem
  obtain ⟨rect', hmem', g1, g2, g3, g4, g5⟩ :=
    applyArrowBindings_mem_geometry (convertBuilt rng m title).2.1
      (convertArrows rng (convertBuilt rng m title).2.2.2 m
        (convertBuilt rng m title).2.2.1)
      (convertBuilt rng m title).1 hmemB
  refine ⟨rect', ?_, g1.trans h1, g2.trans h2, g4.trans h3, g5.trans h4,
    g3.trans h5⟩
  show rect' ∈ applyArrowBindings (convertBuilt rng m title).2.1
      (convertBuilt rng m title).1
      (convertArrows rng (convertBuilt rng m title).2.2.2 m
        (convertBuilt rng m title).2.2.1)
    ++ convertArrows rng (convertBuilt rng m title).2.2.2 m
        (convertBuilt rng m title).2.2.1
  exact List.mem_append_left _ hmem'

/- ===== C5: bound-element lists ===== -/

/-- The per-element reference weight toward the card with id `cid`: 1 if
the element is a text bound to the card, plus 1 for each arrow endpoint
(start and end separately) anchored at the card. -/
def refWeight (cid : String) (x : Element) : Nat :=
  (if x.etype == "text" && x.containerId == some cid then 1 else 0) +
  (if x.etype == "arrow" && cid == arrowStartId x then 1 else 0) +
  (if x.etype == "arrow" && cid == arrowEndId x then 1 else 0)

/-- The number of references to the card with id `cid` held by a list of
elements, counting each arrow endpoint separately. -/
def refCount (els : List Element) (cid : String) : Nat :=
  (els.map (refWeight cid)).sum

theorem refCount_append (l1 l2 : List Element) (cid : String) :
    refCount (l1 ++ l2) cid = refCount l1 cid + refCount l2 cid := by
  simp [refCount]

theorem refCount_arrows (cid : String) : ∀ (arrows : List Element),
    (∀ a ∈ arrows, a.etype = "arrow") →
    refCount arrows cid = (bindingRefs arrows cid).length := by
  intro arrows
  induction arrows with
  | nil => intro _; rfl
  | cons a rest ih =>
    intro hall
    have ha : a.etype = "arrow" := hall a (List.mem_cons_self a rest)
    have hrest := ih (fun x hx => hall x (List.mem_cons_of_mem a hx))
    have hstep : refCount (a :: rest) cid = refWeight cid a + refCount rest cid := by
      simp [refCount]
    rw [hstep, hrest]
    simp only [bindingRefs, List.length_append]
    have h1 : refWeight cid a
        = (if cid == arrowStartId a then [(⟨a.id, "arrow"⟩ : BoundRef)] else []).length
          + (if cid == arrowEndId a then [(⟨a.id, "arrow"⟩ : BoundRef)] else []).length := by
      have hat : (("arrow" : String) == "text") = false := by decide
      simp only [refWeight, ha, hat, Bool.false_and, if_false]
      by_cases hs : (cid == arrowStartId a) = true <;>
        by_cases ht : (cid == arrowEndId a) = true <;>
          simp [hs, ht]
    omega

/-- The per-element weight is blind to `boundElements`. -/
theorem refWeight_bE (cid : String) (e : Element) (bE : List BoundRef) :
    refWeight cid { e with boundElements := bE } = refWeight cid e := rfl

theorem refCount_applyArrowBindings (cids : List String) (arrows els : List Element)
    (cid : String) :
    refCount (applyArrowBindings cids els arrows) cid = refCount els cid := by
  rw [applyArrowBindings_eq_map, refCount, List.map_map]
  refine congrArg List.sum (List.map_congr_left (fun e _ => ?_))
  simp only [Function.comp]
  split
  · exact refWeight_bE cid e _
  · rfl

/-- Rectangles made by the card loops carry exactly their one text
reference, and their id is among the loop's card ids. -/
theorem goalsLoop_rect_facts (rng : Nat → Nat) : ∀ (gs : List Goal) (k i : Nat)
    (y : ℚ) (pos : Positions), ∀ e ∈ (goalsLoop rng k i y pos gs).1,
    e.etype = "rectangle" →
    e.boundElements.length = 1 ∧ e.id ∈ (goalsLoop rng k i y pos gs).2.2.1 := by
  intro gs
  induction gs with
  | nil => intro k i y pos e he; simp [goalsLoop] at he
  | cons g gs' ih =>
    intro k i y pos e he hrect
    rw [goalsLoop] at he ⊢
    simp only [create_card] at he
    rcases List.mem_cons.mp he with rfl | he1
    · exact ⟨rfl, List.mem_cons_self _ _⟩
    rcases List.mem_cons.mp he1 with rfl | he2
    · exact absurd hrect (by simp)
    · obtain ⟨h1, h2⟩ := ih _ _ _ _ e he2 hrect
      exact ⟨h1, List.mem_cons_of_mem _ h2⟩

theorem subjectsLoop_rect_facts (rng : Nat → Nat) : ∀ (ss : List Subject) (k i : Nat)
    (y : ℚ) (pos : Positions), ∀ e ∈ (subjectsLoop rng k i y pos ss).1,
    e.etype = "rectangle" →
    e.boundElements.length = 1 ∧ e.id ∈ (subjectsLoop rng k i y pos ss).2.2.1 := by
  intro ss
  induction ss with
  | nil => intro k i y pos e he; simp [subjectsLoop] at he
  | cons s ss' ih =>
    intro k i y pos e he hrect
    rw [subjectsLoop] at he ⊢
    simp only [create_card] at he
    rcases List.mem_cons.mp he with rfl | he1
    · exact ⟨rfl, List.mem_cons_self _ _⟩
    rcases List.mem_cons.mp he1 with rfl | he2
    · exact absurd hrect (by simp)
    · obtain ⟨h1, h2⟩ := ih _ _ _ _ e he2 hrect
      exact ⟨h1, List.mem_cons_of_mem _ h2⟩

theorem hypothesesLoop_rect_facts (rng : Nat → Nat) : ∀ (hs : List Hypothesis)
    (k i : Nat) (y : ℚ) (pos : Positions), ∀ e ∈ (hypothesesLoop rng k i y pos hs).1,
    e.etype = "rectangle" →
    e.boundElements.length = 1 ∧ e.id ∈ (hypothesesLoop rng k i y pos hs).2.2.1 := by
  intro hs
  induction hs with
  | nil => intro k i y pos e he; simp [hypothesesLoop] at he
  | cons h hs' ih =>
    intro k i y pos e he hrect
    rw [hypothesesLoop] at he ⊢
    simp only [create_card] at he
    rcases List.mem_cons.mp he with rfl | he1
    · exact ⟨rfl, List.mem_cons_self _ _⟩
    rcases List.mem_cons.mp he1 with rfl | he2
    · exact absurd hrect (by simp)
    · obtain ⟨h1, h2⟩ := ih _ _ _ _ e he2 hrect
      exact ⟨h1, List.mem_cons_of_mem _ h2⟩

theorem tasksInner_rect_facts (rng : Nat → Nat) : ∀ (ts : List Task) (k idx : Nat)
    (sy : ℚ) (j : Nat) (pos : Positions), ∀ e ∈ (tasksInner rng k idx sy j pos ts).1,
    e.etype = "rectangle" →
    e.boundElements.length = 1 ∧ e.id ∈ (tasksInner rng k idx sy j pos ts).2.2.1 := by
  intro ts
  induction ts with
  | nil => intro k idx sy j pos e he; simp [tasksInner] at he
  | cons t ts' ih =>
    intro k idx sy j pos e he hrect
    rw [tasksInner] at he ⊢
    simp only [create_card] at he
    rcases List.mem_cons.mp he with rfl | he1
    · exact ⟨rfl, List.mem_cons_self _ _⟩
    rcases List.mem_cons.mp he1 with rfl | he2
    · exact absurd hrect (by simp)
    · obtain ⟨h1, h2⟩ := ih _ _ _ _ _ e he2 hrect
      exact ⟨h1, List.mem_cons_of_mem _ h2⟩

theorem tasksOuter_rect_facts (rng : Nat → Nat) (tasks : List Task) :
    ∀ (hyps : List Hypothesis) (k idx : Nat) (pos : Positions),
    ∀ e ∈ (tasksOuter rng k tasks idx pos hyps).1, e.etype = "rectangle" →
    e.boundElements.length = 1 ∧ e.id ∈ (tasksOuter rng k tasks idx pos hyps).2.2.1 := by
  intro hyps
  induction hyps with
  | nil => intro k idx pos e he; simp [tasksOuter] at he
  | cons h hs ih =>
    intro k idx pos e he hrect
    by_cases hemp : (tasks.filter (fun t => t.hypothesis_id == h.id)).isEmpty
    · rw [tasksOuter, if_pos hemp] at he ⊢
      exact ih _ _ _ e he hrect
    · rw [tasksOuter, if_neg hemp] at he
      rw [tasksOuter, if_neg hemp]
      cases hl : List.lookup h.id pos with
      | none =>
        rw [hl] at he
        exact ih _ _ _ e he hrect
      | some hp =>
        rw [hl] at he
        rcases List.mem_append.mp he with he1 | he2
        · obtain ⟨h1, h2⟩ := tasksInner_rect_facts rng _ _ _ _ _ _ e he1 hrect
          exact ⟨h1, List.mem_append_left _ h2⟩
        · obtain ⟨h1, h2⟩ := ih _ _ _ e he2 hrect
          exact ⟨h1, List.mem_append_right _ h2⟩

/-- A hypothesis with two tasks, for the C6 witness. -/
def hC6 : Hypothesis :=
  { if_part := "a", then_part := "b", because_part := "c", then_metric := "d",
    id := "h1" }

def tC6a : Task := { description := "t", hypothesis_id := "h1", id := "t1" }

def tC6b : Task := { description := "u", hypothesis_id := "h1", id := "t2" }

def mC6 : HypothesisMap :=
  { goals := [], subjects := [], hypotheses := [hC6], tasks := [tC6a, tC6b] }

/-- C6 witness at a concrete input (hypothesis 0, its second task). -/
theorem C6_task_block_centering_witness :
    (∃ rect ∈ (convert_to_excalidraw rng0 mC6 "t").elements,
      rect.etype = "rectangle" ∧ rect.x = 1400 ∧ rect.width = 240 ∧
      rect.height = 100 ∧
      rect.y = (110 + 530 * ((0 : Nat) : ℚ))
        + (350 - (((mC6.tasks.filter (fun x => x.hypothesis_id == hC6.id)).length : ℚ) * 100
            + (((mC6.tasks.filter (fun x => x.hypothesis_id == hC6.id)).length - 1 : Nat) : ℚ)
              * 15)) / 2
        + ((1 : Nat) : ℚ) * (100 + 15)) ∧
    (((110 + 530 * ((0 : Nat) : ℚ))
        + (350 - (((mC6.tasks.filter (fun x => x.hypothesis_id == hC6.id)).length : ℚ) * 100
            + (((mC6.tasks.filter (fun x => x.hypothesis_id == hC6.id)).length - 1 : Nat) : ℚ)
              * 15)) / 2)
      - (110 + 530 * ((0 : Nat) : ℚ))
    = ((110 + 530 * ((0 : Nat) : ℚ)) + 350)
      - (((110 + 530 * ((0 : Nat) : ℚ))
          + (350 - (((mC6.tasks.filter (fun x => x.hypothesis_id == hC6.id)).length : ℚ) * 100
              + (((mC6.tasks.filter (fun x => x.hypothesis_id == hC6.id)).length - 1 : Nat) : ℚ)
                * 15)) / 2)
        + (((mC6.tasks.filter (fun x => x.hypothesis_id == hC6.id)).length : ℚ) * 100
            + (((mC6.tasks.filter (fun x => x.hypothesis_id == hC6.id)).length - 1 : Nat) : ℚ)
              * 15))) :=
  C6_task_block_centering rng0 mC6 "t" (by decide) (by decide) 0 hC6 (by decide)
    1 tC6b (by decide)

theorem refCount_cons (e : Element) (l : List Element) (cid : String) :
    refCount (e :: l) cid = refWeight cid e + refCount l cid := by
  simp [refCount]

theorem refWeight_of_rect (cid : String) (e : Element) (h : e.etype = "rectangle") :
    refWeight cid e = 0 := by
  have h1 : (("rectangle" : String) == "text") = false := by decide
  have h2 : (("rectangle" : String) == "arrow") = false := by decide
  simp [refWeight, h, h1, h2]

theorem refWeight_of_text (cid : String) (e : Element) (h : e.etype = "text") :
    refWeight cid e = if e.containerId == some cid then 1 else 0 := by
  have h1 : (("text" : String) == "text") = true := by decide
  have h2 : (("text" : String) == "arrow") = false := by decide
  simp [refWeight, h, h1, h2]

theorem some_beq_some_str (a b : String) :
    ((some a : Option String) == some b) = (a == b) := rfl

theorem refWeight_of_label (cid : String) (e : Element) (h1 : e.etype = "text")
    (h2 : e.containerId = none) : refWeight cid e = 0 := by
  rw [refWeight_of_text cid e h1, h2]
  rfl

theorem count_step (a b : String) (C : Nat) :
    (if a == b then 1 else 0) + C = C + (if b == a then 1 else 0) := by
  by_cases h : a = b
  · subst h; simp [Nat.add_comm]
  · have h1 : (a == b) = false := beq_eq_false_iff_ne.mpr h
    have h2 : (b == a) = false := beq_eq_false_iff_ne.mpr (Ne.symm h)
    simp [h1, h2]

/-- Goal-loop elements reference a card id exactly as often as it occurs
among the loop's card ids (each card contributes its one bound text). -/
theorem goalsLoop_refCount (rng : Nat → Nat) (cid : String) : ∀ (gs : List Goal)
    (k i : Nat) (y : ℚ) (pos : Positions),
    refCount (goalsLoop rng k i y pos gs).1 cid
      = ((goalsLoop rng k i y pos gs).2.2.1).count cid := by
  intro gs
  induction gs with
  | nil => intro k i y pos; rfl
  | cons g gs' ih =>
    intro k i y pos
    rw [goalsLoop]
    simp only [create_card]
    rw [refCount_cons, refCount_cons, ih, List.count_cons,
      refWeight_of_rect cid _ rfl, refWeight_of_text cid _ rfl]
    simp only [some_beq_some_str, Nat.zero_add]
    exact Nat.add_comm _ _

theorem subjectsLoop_refCount (rng : Nat → Nat) (cid : String) : ∀ (ss : List Subject)
    (k i : Nat) (y : ℚ) (pos : Positions),
    refCount (subjectsLoop rng k i y pos ss).1 cid
      = ((subjectsLoop rng k i y pos ss).2.2.1).count cid := by
  intro ss
  induction ss with
  | nil => intro k i y pos; rfl
  | cons s ss' ih =>
    intro k i y pos
    rw [subjectsLoop]
    simp only [create_card]
    rw [refCount_cons, refCount_cons, ih, List.count_cons,
      refWeight_of_rect cid _ rfl, refWeight_of_text cid _ rfl]
    simp only [some_beq_some_str, Nat.zero_add]
    exact Nat.add_comm _ _

theorem hypothesesLoop_refCount (rng : Nat → Nat) (cid : String) :
    ∀ (hs : List Hypothesis) (k i : Nat) (y : ℚ) (pos : Positions),
    refCount (hypothesesLoop rng k i y pos hs).1 cid
      = ((hypothesesLoop rng k i y pos hs).2.2.1).count cid := by
  intro hs
  induction hs with
  | nil => intro k i y pos; rfl
  | cons h hs' ih =>
    intro k i y pos
    rw [hypothesesLoop]
    simp only [create_card]
    rw [refCount_cons, refCount_cons, ih, List.count_cons,
      refWeight_of_rect cid _ rfl, refWeight_of_text cid _ rfl]
    simp only [some_beq_some_str, Nat.zero_add]
    exact Nat.add_comm _ _

theorem tasksInner_refCount (rng : Nat → Nat) (cid : String) : ∀ (ts : List Task)
    (k idx : Nat) (sy : ℚ) (j : Nat) (pos : Positions),
    refCount (tasksInner rng k idx sy j pos ts).1 cid
      = ((tasksInner rng k idx sy j pos ts).2.2.1).count cid := by
  intro ts
  induction ts with
  | nil => intro k idx sy j pos; rfl
  | cons t ts' ih =>
    intro k idx sy j pos
    rw [tasksInner]
    simp only [create_card]
    rw [refCount_cons, refCount_cons, ih, List.count_cons,
      refWeight_of_rect cid _ rfl, refWeight_of_text cid _ rfl]
    simp only [some_beq_some_str, Nat.zero_add]
    exact Nat.add_comm _ _

theorem tasksOuter_refCount (rng : Nat → Nat) (cid : String) (tasks : List Task) :
    ∀ (hyps : List Hypothesis) (k idx : Nat) (pos : Positions),
    refCount (tasksOuter rng k tasks idx pos hyps).1 cid
      = ((tasksOuter rng k tasks idx pos hyps).2.2.1).count cid := by
  intro hyps
  induction hyps with
  | nil => intro k idx pos; rfl
  | cons h hs ih =>
    intro k idx pos
    by_cases hemp : (tasks.filter (fun t => t.hypothesis_id == h.id)).isEmpty
    · rw [tasksOuter, if_pos hemp]
      exact ih _ _ _
    · rw [tasksOuter, if_neg hemp]
      cases hl : List.lookup h.id pos with
      | none => exact ih _ _ _
      | some hp =>
        simp only
        rw [refCount_append, List.count_append, tasksInner_refCount, ih]

/-- Every placement element references a card id exactly as often as it
occurs among the registered card ids. -/
theorem convertBuilt_refCount (rng : Nat → Nat) (m : HypothesisMap) (title : String)
    (cid : String) :
    refCount (convertBuilt rng m title).1 cid
      = ((convertBuilt rng m title).2.1).count cid := by
  simp only [convertBuilt]
  rw [refCount_cons, refCount_cons, refCount_cons, refCount_cons, refCount_cons,
    refWeight_of_label cid _ rfl rfl, refWeight_of_label cid _ rfl rfl,
    refWeight_of_label cid _ rfl rfl, refWeight_of_label cid _ rfl rfl,
    refWeight_of_label cid _ rfl rfl]
  simp only [Nat.zero_add]
  rw [refCount_append, refCount_append, refCount_append,
    List.count_append, List.count_append, List.count_append]
  simp only [goalsRes, subjectsRes, hypsRes, tasksRes]
  rw [goalsLoop_refCount, subjectsLoop_refCount, hypothesesLoop_refCount,
    tasksOuter_refCount]

/-- The registered card ids are pairwise distinct: within a category they
carry distinct decimal indices, and the four categories have distinct
leading characters. -/
theorem convertBuilt_cids_nodup (rng : Nat → Nat) (m : HypothesisMap)
    (title : String) : ((convertBuilt rng m title).2.1).Nodup := by
  rw [convertBuilt_cids]
  have hg : ("goal-" : String).data.head? = some 'g' := rfl
  have hs : ("subject-" : String).data.head? = some 's' := rfl
  have hh : ("hypothesis-" : String).data.head? = some 'h' := rfl
  have ht : ("task-" : String).data.head? = some 't' := rfl
  refine List.Nodup.append (List.Nodup.append (List.Nodup.append
    (idList_nodup _ _ _) (idList_nodup _ _ _) ?_) (idList_nodup _ _ _) ?_)
    (idList_nodup _ _ _) ?_
  · exact fun a ha => idList_disjoint hg hs (by decide) ha
  · intro a ha
    rcases List.mem_append.mp ha with h1 | h2
    · exact idList_disjoint hg hh (by decide) h1
    · exact idList_disjoint hs hh (by decide) h2
  · intro a ha
    rcases List.mem_append.mp ha with h1 | h2
    · rcases List.mem_append.mp h1 with h3 | h4
      · exact idList_disjoint hg ht (by decide) h3
      · exact idList_disjoint hs ht (by decide) h4
    · exact idList_disjoint hh ht (by decide) h2

/-- Every rectangle of the placement phase carries exactly its one text
reference, and its id is registered in `card_elements`. -/
theorem convertBuilt_rect_facts (rng : Nat → Nat) (m : HypothesisMap)
    (title : String) : ∀ e ∈ (convertBuilt rng m title).1, e.etype = "rectangle" →
    e.boundElements.length = 1 ∧ e.id ∈ (convertBuilt rng m title).2.1 := by
  simp only [convertBuilt]
  intro e he hrect
  rcases List.mem_cons.mp he with rfl | he
  · exact absurd ((show ("text" : String) = (titleRes rng title).1.etype from rfl).trans
      hrect) (by decide)
  rcases List.mem_cons.mp he with rfl | he
  · exact absurd ((show ("text" : String) = (labelRes1 rng title).1.etype from rfl).trans
      hrect) (by decide)
  rcases List.mem_cons.mp he with rfl | he
  · exact absurd ((show ("text" : String) = (labelRes2 rng title).1.etype from rfl).trans
      hrect) (by decide)
  rcases List.mem_cons.mp he with rfl | he
  · exact absurd ((show ("text" : String) = (labelRes3 rng title).1.etype from rfl).trans
      hrect) (by decide)
  rcases List.mem_cons.mp he with rfl | he
  · exact absurd ((show ("text" : String) = (labelRes4 rng title).1.etype from rfl).trans
      hrect) (by decide)
  rcases List.mem_append.mp he with he1 | he2
  rcases List.mem_append.mp he1 with he3 | he4
  rcases List.mem_append.mp he3 with he5 | he6
  · obtain ⟨h1, h2⟩ := goalsLoop_rect_facts rng _ _ _ _ _ e he5 hrect
    exact ⟨h1, by
      simp only [goalsRes] at h2 ⊢
      exact List.mem_append_left _ (List.mem_append_left _ (List.mem_append_left _ h2))⟩
  · obtain ⟨h1, h2⟩ := subjectsLoop_rect_facts rng _ _ _ _ _ e he6 hrect
    exact ⟨h1, by
      simp only [subjectsRes] at h2 ⊢
      exact List.mem_append_left _ (List.mem_append_left _ (List.mem_append_right _ h2))⟩
  · obtain ⟨h1, h2⟩ := hypothesesLoop_rect_facts rng _ _ _ _ _ e he4 hrect
    exact ⟨h1, by
      simp only [hypsRes] at h2 ⊢
      exact List.mem_append_left _ (List.mem_append_right _ h2)⟩
  · obtain ⟨h1, h2⟩ := tasksOuter_rect_facts rng _ _ _ _ _ e he2 hrect
    exact ⟨h1, by
      simp only [tasksRes] at h2 ⊢
      exact List.mem_append_right _ h2⟩

/-- The claim's per-ELEMENT reference count toward the card `cid`: the
number of text or arrow elements that reference the card, an arrow counted
once even when both its endpoints attach to the card. -/
def claimRefElems (els : List Element) (cid : String) : Nat :=
  (els.filter (fun x =>
    (x.etype == "text" && x.containerId == some cid) ||
    (x.etype == "arrow" && (cid == arrowStartId x || cid == arrowEndId x)))).length

/-- A hypothesis that names itself as its subject: the converter draws a
self-loop connector on its card. -/
def hC5 : Hypothesis :=
  { if_part := "a", then_part := "b", because_part := "c", then_metric := "d",
    subject_id := some "h1", id := "h1" }

def mC5 : HypothesisMap := { hypotheses := [hC5] }

/-- The first rectangle of the converted `mC5`: the self-referencing
hypothesis's card. -/
def eC5 : Element :=
  ((convert_to_excalidraw rng0 mC5 "t").elements.filter
    (fun e => e.etype == "rectangle")).head (by decide)

/-- C5 counterexample: on `mC5` (one hypothesis whose `subject_id` is its
own id) the hypothesis card's bound list has length 3 — its text plus one
entry per self-loop arrow ENDPOINT — while only 2 elements (the text and
the one arrow) reference the card, so the claimed per-element count is
wrong. -/
theorem C5_counterexample :
    eC5 ∈ (convert_to_excalidraw rng0 mC5 "t").elements ∧
    eC5.etype = "rectangle" ∧
    eC5.boundElements.length
      ≠ claimRefElems (convert_to_excalidraw rng0 mC5 "t").elements eC5.id := by
  refine ⟨by decide, by decide, by decide⟩

/-- C5 (amended): in the assembled document every rectangle's
`boundElements` list has length equal to the number of references to it:
its one bound text plus one entry per arrow ENDPOINT (start and end
counted separately) anchored at it.  An arrow that both starts and ends at
the same card contributes two entries, not one. -/
theorem C5_bound_list_counts (rng : Nat → Nat) (m : HypothesisMap) (title : String) :
    ∀ e ∈ (convert_to_excalidraw rng m title).elements, e.etype = "rectangle" →
    e.boundElements.length
      = refCount (convert_to_excalidraw rng m title).elements e.id := by
  have hel : (convert_to_excalidraw rng m title).elements
      = applyArrowBindings (convertBuilt rng m title).2.1 (convertBuilt rng m title).1
          (convertArrows rng (convertBuilt rng m title).2.2.2 m
            (convertBuilt rng m title).2.2.1)
        ++ convertArrows rng (convertBuilt rng m title).2.2.2 m
            (convertBuilt rng m title).2.2.1 := rfl
  intro e he hrect
  rw [hel] at he ⊢
  rcases List.mem_append.mp he with hb | ha
  · rw [applyArrowBindings_eq_map] at hb
    obtain ⟨e0, he0, hfe⟩ := List.mem_map.mp hb
    cases hc : (e0.etype == "rectangle"
        && ((convertBuilt rng m title).2.1).contains e0.id) with
    | false =>
      rw [hc] at hfe
      simp only [Bool.false_eq_true, if_false] at hfe
      subst hfe
      obtain ⟨_, hmem⟩ := convertBuilt_rect_facts rng m title e0 he0 hrect
      rw [beq_iff_eq.mpr hrect, Bool.true_and] at hc
      exact absurd hc (by simp [hmem])
    | true =>
      rw [hc] at hfe
      simp only [if_true] at hfe
      subst hfe
      have hrect0 : e0.etype = "rectangle" := hrect
      obtain ⟨hbE1, hmem⟩ := convertBuilt_rect_facts rng m title e0 he0 hrect0
      show (e0.boundElements
          ++ bindingRefs (convertArrows rng (convertBuilt rng m title).2.2.2 m
            (convertBuilt rng m title).2.2.1) e0.id).length
        = refCount (applyArrowBindings (convertBuilt rng m title).2.1
              (convertBuilt rng m title).1
              (convertArrows rng (convertBuilt rng m title).2.2.2 m
                (convertBuilt rng m title).2.2.1)
            ++ convertArrows rng (convertBuilt rng m title).2.2.2 m
                (convertBuilt rng m title).2.2.1) e0.id
      rw [refCount_append, refCount_applyArrowBindings, convertBuilt_refCount,
        refCount_arrows _ _ (convertArrows_etype rng _ m _),
        List.count_eq_one_of_mem (convertBuilt_cids_nodup rng m title) hmem,
        List.length_append, hbE1]
  · exact absurd (hrect.symm.trans (convertArrows_etype rng _ m _ e ha)) (by decide)

/-- C5 witness at a concrete input: the hypothesis card of `mC5` carries
exactly as many bound entries (3) as there are references to it — one
text plus two endpoints of its self-loop connector. -/
theorem C5_bound_list_counts_witness :
    eC5 ∈ (convert_to_excalidraw rng0 mC5 "t").elements ∧
    eC5.etype = "rectangle" ∧
    eC5.boundElements.length
      = refCount (convert_to_excalidraw rng0 mC5 "t").elements eC5.id :=
  ⟨by decide, by decide,
    C5_bound_list_counts rng0 mC5 "t" eC5 (by decide) (by decide)⟩

/-- C10 witness at a concrete input. -/
theorem C10_dangling_task_dropped_witness :
    ({ description := "t", hypothesis_id := "nope", id := "t1" } : Task)
        ∉ placedTasks mC10.tasks mC10.hypotheses ∧
    ((convert_to_excalidraw rng0 mC10 "t").elements.filter
        (fun e => e.etype == "rectangle")).length
      = mC10.goals.length + mC10.subjects.length + mC10.hypotheses.length
        + (placedTasks mC10.tasks mC10.hypotheses).length ∧
    (convertBuilt rng0 mC10 "t").2.1
      = idList "goal-" 0 mC10.goals.length
        ++ idList "subject-" 0 mC10.subjects.length
        ++ idList "hypothesis-" 0 mC10.hypotheses.length
        ++ idList "task-" 0 (placedTasks mC10.tasks mC10.hypotheses).length ∧
    ((convertBuilt rng0 mC10 "t").2.2.1).map Prod.fst = (registryIds mC10).reverse :=
  C10_dangling_task_dropped rng0 mC10 "t"
    { description := "t", hypothesis_id := "nope", id := "t1" }
    (by decide) (by decide)

/- ===== C7: determinism modulo identifier-like fields ===== -/

/-- Strip the fields fed from the random stream: the element id (random
digits in the title and label ids), the `seed` and the `versionNonce`.
Geometry, text, bound lists and endpoint bindings are kept. -/
def scrub (e : Element) : Element :=
  { e with id := "", seed := 0, versionNonce := 0 }

theorem scrub_setBE (e : Element) (X : List BoundRef) :
    scrub { e with boundElements := X } = { scrub e with boundElements := X } := rfl

/-- Goal cards are identical across two draw streams except for the
scrubbed fields, and their ids do not depend on the stream at all. -/
theorem goalsLoop_scrub (rng1 rng2 : Nat → Nat) : ∀ (gs : List Goal)
    (k1 k2 i : Nat) (y : ℚ) (pos1 pos2 : Positions),
    (goalsLoop rng1 k1 i y pos1 gs).1.map scrub
      = (goalsLoop rng2 k2 i y pos2 gs).1.map scrub ∧
    (goalsLoop rng1 k1 i y pos1 gs).1.map (fun e => e.id)
      = (goalsLoop rng2 k2 i y pos2 gs).1.map (fun e => e.id) := by
  intro gs
  induction gs with
  | nil => intro k1 k2 i y pos1 pos2; exact ⟨rfl, rfl⟩
  | cons g gs' ih =>
    intro k1 k2 i y pos1 pos2
    rw [goalsLoop, goalsLoop]
    simp only [create_card, List.map_cons]
    obtain ⟨h1, h2⟩ := ih (k1 + 4) (k2 + 4) (i + 1) (y + 200 + 180)
      ((g.id, PosEntry.mk 100 y 320 200 ("goal-" ++ decimalStr i)) :: pos1)
      ((g.id, PosEntry.mk 100 y 320 200 ("goal-" ++ decimalStr i)) :: pos2)
    exact ⟨by rw [h1]; exact rfl, by rw [h2]⟩

theorem subjectsLoop_scrub (rng1 rng2 : Nat → Nat) : ∀ (ss : List Subject)
    (k1 k2 i : Nat) (y : ℚ) (pos1 pos2 : Positions),
    (subjectsLoop rng1 k1 i y pos1 ss).1.map scrub
      = (subjectsLoop rng2 k2 i y pos2 ss).1.map scrub ∧
    (subjectsLoop rng1 k1 i y pos1 ss).1.map (fun e => e.id)
      = (subjectsLoop rng2 k2 i y pos2 ss).1.map (fun e => e.id) := by
  intro ss
  induction ss with
  | nil => intro k1 k2 i y pos1 pos2; exact ⟨rfl, rfl⟩
  | cons s ss' ih =>
    intro k1 k2 i y pos1 pos2
    rw [subjectsLoop, subjectsLoop]
    simp only [create_card, List.map_cons]
    obtain ⟨h1, h2⟩ := ih (k1 + 4) (k2 + 4) (i + 1) (y + 200 + 180)
      ((s.id, PosEntry.mk 500 y 280 200 ("subject-" ++ decimalStr i)) :: pos1)
      ((s.id, PosEntry.mk 500 y 280 200 ("subject-" ++ decimalStr i)) :: pos2)
    exact ⟨by rw [h1]; exact rfl, by rw [h2]⟩

theorem hypothesesLoop_scrub (rng1 rng2 : Nat → Nat) : ∀ (hs : List Hypothesis)
    (k1 k2 i : Nat) (y : ℚ) (pos1 pos2 : Positions),
    (hypothesesLoop rng1 k1 i y pos1 hs).1.map scrub
      = (hypothesesLoop rng2 k2 i y pos2 hs).1.map scrub ∧
    (hypothesesLoop rng1 k1 i y pos1 hs).1.map (fun e => e.id)
      = (hypothesesLoop rng2 k2 i y pos2 hs).1.map (fun e => e.id) := by
  intro hs
  induction hs with
  | nil => intro k1 k2 i y pos1 pos2; exact ⟨rfl, rfl⟩
  | cons h hs' ih =>
    intro k1 k2 i y pos1 pos2
    rw [hypothesesLoop, hypothesesLoop]
    simp only [create_card, List.map_cons]
    obtain ⟨h1, h2⟩ := ih (k1 + 4) (k2 + 4) (i + 1) (y + 350 + 180)
      ((h.id, PosEntry.mk 950 y 380 350 ("hypothesis-" ++ decimalStr i)) :: pos1)
      ((h.id, PosEntry.mk 950 y 380 350 ("hypothesis-" ++ decimalStr i)) :: pos2)
    exact ⟨by rw [h1]; exact rfl, by rw [h2]⟩

theorem tasksInner_scrub (rng1 rng2 : Nat → Nat) : ∀ (ts : List Task)
    (k1 k2 idx : Nat) (sy : ℚ) (j : Nat) (pos1 pos2 : Positions),
    (tasksInner rng1 k1 idx sy j pos1 ts).1.map scrub
      = (tasksInner rng2 k2 idx sy j pos2 ts).1.map scrub ∧
    (tasksInner rng1 k1 idx sy j pos1 ts).1.map (fun e => e.id)
      = (tasksInner rng2 k2 idx sy j pos2 ts).1.map (fun e => e.id) := by
  intro ts
  induction ts with
  | nil => intro k1 k2 idx sy j pos1 pos2; exact ⟨rfl, rfl⟩
  | cons t ts' ih =>
    intro k1 k2 idx sy j pos1 pos2
    rw [tasksInner, tasksInner]
    simp only [create_card, List.map_cons]
    obtain ⟨h1, h2⟩ := ih (k1 + 4) (k2 + 4) (idx + 1) sy (j + 1)
      ((t.id, PosEntry.mk 1400 (sy + (j : ℚ) * (100 + 15)) 240 100
        ("task-" ++ decimalStr idx)) :: pos1)
      ((t.id, PosEntry.mk 1400 (sy + (j : ℚ) * (100 + 15)) 240 100
        ("task-" ++ decimalStr idx)) :: pos2)
    exact ⟨by rw [h1]; exact rfl, by rw [h2]⟩

/-- The task loop's registry output does not depend on the draw stream. -/
theorem tasksOuter_pos_rng (rng1 rng2 : Nat → Nat) (tasks : List Task) :
    ∀ (hyps : List Hypothesis) (k1 k2 idx : Nat) (pos : Positions),
    (tasksOuter rng1 k1 tasks idx pos hyps).2.1
      = (tasksOuter rng2 k2 tasks idx pos hyps).2.1 := by
  intro hyps
  induction hyps with
  | nil => intro k1 k2 idx pos; rfl
  | cons h hs ih =>
    intro k1 k2 idx pos
    by_cases hemp : (tasks.filter (fun t => t.hypothesis_id == h.id)).isEmpty
    · rw [tasksOuter, if_pos hemp, tasksOuter, if_pos hemp]
      exact ih _ _ _ _
    · rw [tasksOuter, if_neg hemp, tasksOuter, if_neg hemp]
      cases hl : List.lookup h.id pos with
      | none => exact ih _ _ _ _
      | some hp =>
        simp only
        rw [tasksInner_pos, tasksInner_pos, tasksInner_idx, tasksInner_idx]
        exact ih _ _ _ _

theorem tasksOuter_scrub (rng1 rng2 : Nat → Nat) (tasks : List Task) :
    ∀ (hyps : List Hypothesis) (k1 k2 idx : Nat) (pos : Positions),
    (tasksOuter rng1 k1 tasks idx pos hyps).1.map scrub
      = (tasksOuter rng2 k2 tasks idx pos hyps).1.map scrub ∧
    (tasksOuter rng1 k1 tasks idx pos hyps).1.map (fun e => e.id)
      = (tasksOuter rng2 k2 tasks idx pos hyps).1.map (fun e => e.id) := by
  intro hyps
  induction hyps with
  | nil => intro k1 k2 idx pos; exact ⟨rfl, rfl⟩
  | cons h hs ih =>
    intro k1 k2 idx pos
    by_cases hemp : (tasks.filter (fun t => t.hypothesis_id == h.id)).isEmpty
    · rw [tasksOuter, if_pos hemp, tasksOuter, if_pos hemp]
      exact ih _ _ _ _
    · rw [tasksOuter, if_neg hemp, tasksOuter, if_neg hemp]
      cases hl : List.lookup h.id pos with
      | none => exact ih _ _ _ _
      | some hp =>
        simp only
        rw [tasksInner_pos, tasksInner_pos, tasksInner_idx, tasksInner_idx]
        refine ⟨?_, ?_⟩
        · rw [List.map_append, List.map_append,
            (tasksInner_scrub rng1 rng2 _ k1 k2 idx _ 0 pos pos).1,
            (ih _ _ _ _).1]
        · rw [List.map_append, List.map_append,
            (tasksInner_scrub rng1 rng2 _ k1 k2 idx _ 0 pos pos).2,
            (ih _ _ _ _).2]

/-- Subject arrows are identical across two draw streams except for the
scrubbed fields; their ids and the arrow counter do not depend on the
stream. -/
theorem subjectArrowsLoop_scrub (rng1 rng2 : Nat → Nat) (goals : List Goal)
    (pos : Positions) : ∀ (ss : List Subject) (k1 k2 idx : Nat),
    (subjectArrowsLoop rng1 k1 goals pos idx ss).1.map scrub
      = (subjectArrowsLoop rng2 k2 goals pos idx ss).1.map scrub ∧
    (subjectArrowsLoop rng1 k1 goals pos idx ss).1.map (fun e => e.id)
      = (subjectArrowsLoop rng2 k2 goals pos idx ss).1.map (fun e => e.id) ∧
    (subjectArrowsLoop rng1 k1 goals pos idx ss).2.1
      = (subjectArrowsLoop rng2 k2 goals pos idx ss).2.1 := by
  intro ss
  induction ss with
  | nil => intro k1 k2 idx; exact ⟨rfl, rfl, rfl⟩
  | cons s ss' ih =>
    intro k1 k2 idx
    cases goals with
    | nil => exact ih _ _ _
    | cons g0 gs =>
      cases hsl : List.lookup s.id pos with
      | none =>
        rw [subjectArrowsLoop, subjectArrowsLoop, hsl]
        exact ih _ _ _
      | some s_pos =>
        rw [subjectArrowsLoop, subjectArrowsLoop, hsl]
        cases hgl : List.lookup g0.id pos with
        | none => exact ih _ _ _
        | some g_pos =>
          simp only [create_arrow, List.map_cons]
          obtain ⟨a1, a2, a3⟩ := ih (k1 + 2) (k2 + 2) (idx + 1)
          exact ⟨by rw [a1]; exact rfl, by rw [a2], a3⟩

theorem hypothesisArrowsLoop_scrub (rng1 rng2 : Nat → Nat) (pos : Positions) :
    ∀ (hs : List Hypothesis) (k1 k2 idx : Nat),
    (hypothesisArrowsLoop rng1 k1 pos idx hs).1.map scrub
      = (hypothesisArrowsLoop rng2 k2 pos idx hs).1.map scrub ∧
    (hypothesisArrowsLoop rng1 k1 pos idx hs).1.map (fun e => e.id)
      = (hypothesisArrowsLoop rng2 k2 pos idx hs).1.map (fun e => e.id) ∧
    (hypothesisArrowsLoop rng1 k1 pos idx hs).2.1
      = (hypothesisArrowsLoop rng2 k2 pos idx hs).2.1 := by
  intro hs
  induction hs with
  | nil => intro k1 k2 idx; exact ⟨rfl, rfl, rfl⟩
  | cons h hs' ih =>
    intro k1 k2 idx
    cases hsid : h.subject_id with
    | none =>
      rw [hypothesisArrowsLoop, hypothesisArrowsLoop, hsid]
      exact ih _ _ _
    | some sid =>
      simp only [hypothesisArrowsLoop, hsid]
      by_cases hemp : sid = ""
      · rw [if_pos hemp, if_pos hemp]
        exact ih _ _ _
      · rw [if_neg hemp, if_neg hemp]
        cases hls : List.lookup sid pos with
        | none =>
          cases hlh : List.lookup h.id pos with
          | none => exact ih _ _ _
          | some h_pos => exact ih _ _ _
        | some s_pos =>
          cases hlh : List.lookup h.id pos with
          | none => exact ih _ _ _
          | some h_pos =>
            simp only [create_arrow, List.map_cons]
            obtain ⟨a1, a2, a3⟩ := ih (k1 + 2) (k2 + 2) (idx + 1)
            exact ⟨by rw [a1]; exact rfl, by rw [a2], a3⟩

theorem taskArrowsLoop_scrub (rng1 rng2 : Nat → Nat) (pos : Positions) :
    ∀ (ts : List Task) (k1 k2 idx : Nat),
    (taskArrowsLoop rng1 k1 pos idx ts).1.map scrub
      = (taskArrowsLoop rng2 k2 pos idx ts).1.map scrub ∧
    (taskArrowsLoop rng1 k1 pos idx ts).1.map (fun e => e.id)
      = (taskArrowsLoop rng2 k2 pos idx ts).1.map (fun e => e.id) ∧
    (taskArrowsLoop rng1 k1 pos idx ts).2.1
      = (taskArrowsLoop rng2 k2 pos idx ts).2.1 := by
  intro ts
  induction ts with
  | nil => intro k1 k2 idx; exact ⟨rfl, rfl, rfl⟩
  | cons t ts' ih =>
    intro k1 k2 idx
    rw [taskArrowsLoop, taskArrowsLoop]
    cases h1 : List.lookup t.hypothesis_id pos with
    | none => exact ih _ _ _
    | some h_pos =>
      cases h2 : List.lookup t.id pos with
      | none => exact ih _ _ _
      | some t_pos =>
        simp only [create_arrow, List.map_cons]
        obtain ⟨a1, a2, a3⟩ := ih (k1 + 2) (k2 + 2) (idx + 1)
        exact ⟨by rw [a1]; exact rfl, by rw [a2], a3⟩

/-- The connector phase is identical across two draw streams except for
the scrubbed fields, and the arrow ids do not depend on the stream. -/
theorem convertArrows_scrub (rng1 rng2 : Nat → Nat) (k1 k2 : Nat)
    (m : HypothesisMap) (pos : Positions) :
    (convertArrows rng1 k1 m pos).map scrub
      = (convertArrows rng2 k2 m pos).map scrub ∧
    (convertArrows rng1 k1 m pos).map (fun e => e.id)
      = (convertArrows rng2 k2 m pos).map (fun e => e.id) := by
  obtain ⟨s1, s2, s3⟩ := subjectArrowsLoop_scrub rng1 rng2 m.goals pos m.subjects k1 k2 0
  simp only [convertArrows]
  rw [s3]
  obtain ⟨h1, h2, h3⟩ := hypothesisArrowsLoop_scrub rng1 rng2 pos m.hypotheses
    (subjectArrowsLoop rng1 k1 m.goals pos 0 m.subjects).2.2
    (subjectArrowsLoop rng2 k2 m.goals pos 0 m.subjects).2.2
    (subjectArrowsLoop rng2 k2 m.goals pos 0 m.subjects).2.1
  rw [h3]
  obtain ⟨t1, t2, t3⟩ := taskArrowsLoop_scrub rng1 rng2 pos m.tasks
    (hypothesisArrowsLoop rng1 (subjectArrowsLoop rng1 k1 m.goals pos 0 m.subjects).2.2
      pos (subjectArrowsLoop rng2 k2 m.goals pos 0 m.subjects).2.1 m.hypotheses).2.2
    (hypothesisArrowsLoop rng2 (subjectArrowsLoop rng2 k2 m.goals pos 0 m.subjects).2.2
      pos (subjectArrowsLoop rng2 k2 m.goals pos 0 m.subjects).2.1 m.hypotheses).2.2
    (hypothesisArrowsLoop rng2 (subjectArrowsLoop rng2 k2 m.goals pos 0 m.subjects).2.2
      pos (subjectArrowsLoop rng2 k2 m.goals pos 0 m.subjects).2.1 m.hypotheses).2.1
  constructor
  · rw [List.map_append, List.map_append, List.map_append, List.map_append, s1, h1, t1]
  · rw [List.map_append, List.map_append, List.map_append, List.map_append, s2, h2, t2]

/-- The per-element relation sustained between the two runs' placement
elements: equal after scrubbing, and equal ids for rectangles (card ids
are deterministic; only the title's and labels' ids are random). -/
def scrubRel (e1 e2 : Element) : Prop :=
  scrub e1 = scrub e2 ∧ (e1.etype = "rectangle" → e1.id = e2.id)

theorem scrubRel_of_text {e1 e2 : Element} (h : scrub e1 = scrub e2)
    (ht : e1.etype = "text") : scrubRel e1 e2 :=
  ⟨h, fun hx => absurd (ht.symm.trans hx) (by decide)⟩

theorem forall2_scrubRel_of_maps : ∀ {l1 l2 : List Element},
    l1.map scrub = l2.map scrub →
    l1.map (fun e => e.id) = l2.map (fun e => e.id) →
    List.Forall₂ scrubRel l1 l2 := by
  intro l1
  induction l1 with
  | nil =>
    intro l2 h1 _
    cases l2 with
    | nil => exact List.Forall₂.nil
    | cons b bs => simp at h1
  | cons a as ih =>
    intro l2 h1 h2
    cases l2 with
    | nil => simp at h1
    | cons b bs =>
      simp only [List.map_cons, List.cons.injEq] at h1 h2
      exact List.Forall₂.cons ⟨h1.1, fun _ => h2.1⟩ (ih h1.2 h2.2)

/-- Two arrow lists that agree after scrubbing and on ids apply the same
binding side effects. -/
theorem bindingRefs_congr : ∀ (l1 l2 : List Element),
    l1.map scrub = l2.map scrub →
    l1.map (fun e => e.id) = l2.map (fun e => e.id) →
    ∀ cid, bindingRefs l1 cid = bindingRefs l2 cid := by
  intro l1
  induction l1 with
  | nil =>
    intro l2 h1 _ cid
    cases l2 with
    | nil => rfl
    | cons b bs => simp at h1
  | cons a as ih =>
    intro l2 h1 h2 cid
    cases l2 with
    | nil => simp at h1
    | cons b bs =>
      simp only [List.map_cons, List.cons.injEq] at h1 h2
      have hsb0 := congrArg Element.startBinding h1.1
      have hsb : a.startBinding = b.startBinding := hsb0
      have heb0 := congrArg Element.endBinding h1.1
      have heb : a.endBinding = b.endBinding := heb0
      have hid : a.id = b.id := h2.1
      simp only [bindingRefs, arrowStartId, arrowEndId, hsb, heb, hid,
        ih bs h1.2 h2.2 cid]

theorem setBE_congr {e1 e2 : Element} {X1 X2 : List BoundRef}
    (he : scrub e1 = scrub e2) (hX : X1 = X2) :
    scrub { e1 with boundElements := X1 } = scrub { e2 with boundElements := X2 } := by
  subst hX
  have hmid : ({ scrub e1 with boundElements := X1 } : Element)
      = { scrub e2 with boundElements := X1 } := by rw [he]
  exact (scrub_setBE e1 X1).trans (hmid.trans (scrub_setBE e2 X1).symm)

theorem scrubRel_bind_step (cids : List String) (arrows1 arrows2 : List Element)
    (href : ∀ cid, bindingRefs arrows1 cid = bindingRefs arrows2 cid)
    (a b : Element) (hab : scrubRel a b) :
    scrub (if a.etype == "rectangle" && cids.contains a.id then { a with boundElements := a.boundElements ++ bindingRefs arrows1 a.id } else a)
      = scrub (if b.etype == "rectangle" && cids.contains b.id then { b with boundElements := b.boundElements ++ bindingRefs arrows2 b.id } else b) := by
  obtain ⟨hsc, hid⟩ := hab
  have hety0 := congrArg Element.etype hsc
  have hety : a.etype = b.etype := hety0
  by_cases hrect : a.etype = "rectangle"
  · have hid' : a.id = b.id := hid hrect
    have hbE0 := congrArg Element.boundElements hsc
    have hbE : a.boundElements = b.boundElements := hbE0
    have hcnd : (b.etype == "rectangle" && cids.contains b.id)
        = (a.etype == "rectangle" && cids.contains a.id) := by
      rw [hety, hid']
    simp only [hcnd]
    cases hcond : (a.etype == "rectangle" && cids.contains a.id) with
    | false =>
      simp only [Bool.false_eq_true, if_false]
      exact hsc
    | true =>
      simp only [if_true]
      exact setBE_congr hsc (by rw [hbE, href a.id, hid'])
  · have h1 : (a.etype == "rectangle") = false := beq_eq_false_iff_ne.mpr hrect
    have h2 : (b.etype == "rectangle") = false :=
      beq_eq_false_iff_ne.mpr (hety ▸ hrect)
    rw [h1, h2]
    simp only [Bool.false_and, Bool.false_eq_true, if_false]
    exact hsc

theorem applyArrowBindings_scrub_congr (cids : List String)
    (arrows1 arrows2 : List Element)
    (href : ∀ cid, bindingRefs arrows1 cid = bindingRefs arrows2 cid) :
    ∀ {l1 l2 : List Element}, List.Forall₂ scrubRel l1 l2 →
    (applyArrowBindings cids l1 arrows1).map scrub
      = (applyArrowBindings cids l2 arrows2).map scrub := by
  intro l1 l2 hrel
  rw [applyArrowBindings_eq_map, applyArrowBindings_eq_map, List.map_map, List.map_map]
  induction hrel with
  | nil => rfl
  | cons hab hrest ih =>
    simp only [List.map_cons, Function.comp]
    rw [ih]
    congr 1
    exact scrubRel_bind_step cids arrows1 arrows2 href _ _ hab

theorem hypsRes_pos_eq (rng1 rng2 : Nat → Nat) (m : HypothesisMap) (title : String) :
    (hypsRes rng1 m title).2.1 = (hypsRes rng2 m title).2.1 := by
  simp only [hypsRes, subjectsRes, goalsRes]
  rw [hypothesesLoop_pos, hypothesesLoop_pos, subjectsLoop_pos, subjectsLoop_pos,
    goalsLoop_pos, goalsLoop_pos]

/-- The registry produced by the placement phase does not depend on the
draw stream. -/
theorem builtPos_eq (rng1 rng2 : Nat → Nat) (m : HypothesisMap) (title : String) :
    (convertBuilt rng1 m title).2.2.1 = (convertBuilt rng2 m title).2.2.1 := by
  simp only [convertBuilt, tasksRes]
  rw [hypsRes_pos_eq rng1 rng2 m title]
  exact tasksOuter_pos_rng rng1 rng2 m.tasks m.hypotheses _ _ 0 _

/-- The two runs' placement phases are pointwise `scrubRel`-related. -/
theorem convertBuilt_scrubRel (rng1 rng2 : Nat → Nat) (m : HypothesisMap)
    (title : String) :
    List.Forall₂ scrubRel (convertBuilt rng1 m title).1 (convertBuilt rng2 m title).1 := by
  have hg := goalsLoop_scrub rng1 rng2 m.goals (labelRes4 rng1 title).2
    (labelRes4 rng2 title).2 0 110 [] []
  have hsj := subjectsLoop_scrub rng1 rng2 m.subjects (goalsRes rng1 m title).2.2.2
    (goalsRes rng2 m title).2.2.2 0 110 (goalsRes rng1 m title).2.1
    (goalsRes rng2 m title).2.1
  have hh := hypothesesLoop_scrub rng1 rng2 m.hypotheses (subjectsRes rng1 m title).2.2.2
    (subjectsRes rng2 m title).2.2.2 0 110 (subjectsRes rng1 m title).2.1
    (subjectsRes rng2 m title).2.1
  simp only [convertBuilt]
  refine List.Forall₂.cons (scrubRel_of_text rfl rfl) ?_
  refine List.Forall₂.cons (scrubRel_of_text rfl rfl) ?_
  refine List.Forall₂.cons (scrubRel_of_text rfl rfl) ?_
  refine List.Forall₂.cons (scrubRel_of_text rfl rfl) ?_
  refine List.Forall₂.cons (scrubRel_of_text rfl rfl) ?_
  refine List.rel_append (List.rel_append (List.rel_append ?_ ?_) ?_) ?_
  · exact forall2_scrubRel_of_maps hg.1 hg.2
  · exact forall2_scrubRel_of_maps hsj.1 hsj.2
  · exact forall2_scrubRel_of_maps hh.1 hh.2
  · simp only [tasksRes]
    rw [hypsRes_pos_eq rng1 rng2 m title]
    have ht := tasksOuter_scrub rng1 rng2 m.tasks m.hypotheses
      (hypsRes rng1 m title).2.2.2 (hypsRes rng2 m title).2.2.2 0
      (hypsRes rng2 m title).2.1
    exact forall2_scrubRel_of_maps ht.1 ht.2

/-- C7: two conversions of the same map over different draw streams yield
element lists that are equal after scrubbing the identifier-like fields
(element id, seed, versionNonce) — same counts, positions, sizes, texts,
bound lists and endpoint bindings, hence the same connector topology. -/
theorem C7_determinism (rng1 rng2 : Nat → Nat) (m : HypothesisMap) (title : String) :
    (convert_to_excalidraw rng1 m title).elements.map scrub
      = (convert_to_excalidraw rng2 m title).elements.map scrub := by
  have hel1 : (convert_to_excalidraw rng1 m title).elements
      = applyArrowBindings (convertBuilt rng1 m title).2.1 (convertBuilt rng1 m title).1
          (convertArrows rng1 (convertBuilt rng1 m title).2.2.2 m
            (convertBuilt rng1 m title).2.2.1)
        ++ convertArrows rng1 (convertBuilt rng1 m title).2.2.2 m
            (convertBuilt rng1 m title).2.2.1 := rfl
  have hel2 : (convert_to_excalidraw rng2 m title).elements
      = applyArrowBindings (convertBuilt rng2 m title).2.1 (convertBuilt rng2 m title).1
          (convertArrows rng2 (convertBuilt rng2 m title).2.2.2 m
            (convertBuilt rng2 m title).2.2.1)
        ++ convertArrows rng2 (convertBuilt rng2 m title).2.2.2 m
            (convertBuilt rng2 m title).2.2.1 := rfl
  have hcids : (convertBuilt rng1 m title).2.1 = (convertBuilt rng2 m title).2.1 := by
    rw [convertBuilt_cids, convertBuilt_cids]
  rw [hel1, hel2, builtPos_eq rng1 rng2 m title, hcids]
  have harr := convertArrows_scrub rng1 rng2 (convertBuilt rng1 m title).2.2.2
    (convertBuilt rng2 m title).2.2.2 m (convertBuilt rng2 m title).2.2.1
  rw [List.map_append, List.map_append, harr.1,
    applyArrowBindings_scrub_congr (convertBuilt rng2 m title).2.1
      (convertArrows rng1 (convertBuilt rng1 m title).2.2.2 m
        (convertBuilt rng2 m title).2.2.1)
      (convertArrows rng2 (convertBuilt rng2 m title).2.2.2 m
        (convertBuilt rng2 m title).2.2.1)
      (bindingRefs_congr _ _ harr.1 harr.2) (convertBuilt_scrubRel rng1 rng2 m title)]

end HypoMap
